import Mathlib

/-!
A concurrent file compression tool: dispatcher and worker loops.

Shallow embedding of the two C sources of the repository:

* `CompressionTool.c` (the busy-wait variant): `find_idle_worker` and the file
  loop of `main`;
* `Main.c` (the `select` variant): `worker_process` and the dispatch loop,
  shutdown phase and cleanup of `main`.

Conventions of the embedding.

* A C string is modelled by the `String` of its bytes before the terminating
  NUL, one `Char` per byte; `strlen` is `String.length` and `strcmp(a, b) == 0`
  is `a = b`.
* A worker table (`workers[i]`, `pipes[i]`) is a function of the index; the
  code only ever reads and writes the indices below `NUM_WORKERS`.
* A `for (i = 0; i < NUM_WORKERS; i++)` loop is a recursion on the number of
  iterations that remain, carrying the index `i`.
* What the environment answers is an input of the model: the directory
  entries and `stat`, the answers of `select`, what each `read` delivers and
  what the buffer it reads into held before, what `system` returns, the pids
  `fork` returns, whether a pipe written to still has a reader (a `write` to a
  pipe without reader raises SIGPIPE, which ends the writing process, as
  neither source installs a handler) and whether `waitpid` returns.
  Wall-clock timestamps (`time(NULL)`) are left out of the records.
-/

namespace CompressionTool

/-! ## CompressionTool.c -/

def NUM_WORKERS : Nat := 4
def MAX_FILENAME_LENGTH : Nat := 256
def MAX_PATH_LENGTH : Nat := 4096

/-- The `enum WorkerStatus` of CompressionTool.c (five values). -/
inductive WorkerStatus
  | WORKER_IDLE
  | WORKER_BUSY
  | WORKER_DONE
  | WORKER_ERROR
  | WORKER_TERMINATED
  deriving DecidableEq, Repr

/-- The `struct WorkerState` of CompressionTool.c. -/
structure WorkerState where
  status : WorkerStatus
  pid : Int
  files_processed : Int
  last_active : Int
  deriving DecidableEq, Repr

/-- The loop of `find_idle_worker` (CompressionTool.c 148-152): `k` iterations
remain and the index is `i`; the first idle index is returned, `-1` when the
loop runs out. -/
def find_idle_worker_loop (workers : Nat → WorkerState) : Nat → Nat → Int
  | 0, _ => -1
  | k + 1, i =>
    if (workers i).status = WorkerStatus.WORKER_IDLE then (i : Int)
    else find_idle_worker_loop workers k (i + 1)

/-- The function `find_idle_worker` (CompressionTool.c 147-154). -/
def find_idle_worker (workers : Nat → WorkerState) : Int :=
  find_idle_worker_loop workers NUM_WORKERS 0

/-- The length of a C string. -/
def strlen (s : String) : Nat := s.length

/-- The value `source_dir` holds after `setup_directories`. -/
def source_dir : String := "./source_files"

/-- One directory entry as `readdir` returns it, with the answer of
`stat(filepath, &file_stat) == 0 && S_ISREG(file_stat.st_mode)` for it. -/
structure Dirent where
  d_name : String
  is_reg : Bool
  deriving DecidableEq, Repr

/-- The test `entry->d_name[0] == '.'` (an empty name has `d_name[0] == 0`). -/
def starts_with_dot (d_name : String) : Bool :=
  match d_name.data with
  | [] => false
  | c :: _ => c == '.'

/-- The dispatcher side of CompressionTool.c: the worker table, the `write`
calls made on the workers' input pipes (worker index and C string, in call
order), the messages handed to `write_log_entry`, and whether the process was
killed: then the last `write` call found its pipe without reader, raised
SIGPIPE and delivered nothing. -/
structure State where
  workers : Nat → WorkerState
  writes : List (Nat × String)
  log : List String
  killed : Bool

/-- The table after the initialisation loop (CompressionTool.c 249-257) and the
fork loop (260-285): every status is `WORKER_IDLE`, `files_processed` is 0 and
`pid` is the child's pid; `last_active` is never assigned and keeps what the
memory `mem` held. -/
def init_workers (mem : Nat → WorkerState) (pids : Nat → Int) : Nat → WorkerState :=
  fun i =>
    if i < NUM_WORKERS then
      { status := WorkerStatus.WORKER_IDLE, pid := pids i, files_processed := 0,
        last_active := (mem i).last_active }
    else mem i

/-- The statement `workers[worker_id].status = WORKER_BUSY`. -/
def set_busy (workers : Nat → WorkerState) (worker_id : Nat) : Nat → WorkerState :=
  Function.update workers worker_id { workers worker_id with status := WorkerStatus.WORKER_BUSY }

/-- One iteration of the `readdir` loop of `main` (CompressionTool.c 296-325).
`gone n i` is the answer of the environment to the `write` at line 314: when
`n` write calls have been made before, the input pipe of worker `i` has no
reader left.  The read ends are `O_NONBLOCK` (`create_pipe_pair`, line 131) and
`worker_process` leaves its loop at the first `read` that finds the pipe empty
(line 217), so a worker that runs before its name is written is gone.  A write
to a pipe without reader raises SIGPIPE: the process ends inside the call, the
status is not set and nothing is logged. -/
def process_entry (gone : Nat → Nat → Bool) (s : State) (entry : Dirent) : State :=
  if starts_with_dot entry.d_name then s
  else
    let result : Int := ((strlen source_dir + 1 + strlen entry.d_name : Nat) : Int)
    if result < 0 ∨ result ≥ (MAX_PATH_LENGTH : Int) then
      { s with log := s.log ++ ["Error: Filepath too long"] }
    else if entry.is_reg then
      let worker_id := find_idle_worker s.workers
      if worker_id ≥ 0 then
        if gone s.writes.length worker_id.toNat then
          { s with writes := s.writes ++ [(worker_id.toNat, entry.d_name)], killed := true }
        else
          { workers := set_busy s.workers worker_id.toNat
            writes := s.writes ++ [(worker_id.toNat, entry.d_name)]
            log := s.log ++
              ["Assigned file " ++ entry.d_name ++ " to worker " ++ toString worker_id]
            killed := false }
      else s
    else s

/-- The `readdir` loop of `main` (CompressionTool.c 295-325) over the entries
the directory stream yields; it stops where the process is killed. -/
def process_files (gone : Nat → Nat → Bool) : State → List Dirent → State
  | s, [] => s
  | s, entry :: dir =>
    if (process_entry gone s entry).killed then process_entry gone s entry
    else process_files gone (process_entry gone s entry) dir

/-- The part of `main` of CompressionTool.c that starts at the worker table
(245-257, 260-285) and runs the file loop (295-325); the argument check, the
directory set-up and the decompression before it, and `cleanup_resources`
after it, touch neither the table nor the job streams. -/
def main (gone : Nat → Nat → Bool) (mem : Nat → WorkerState) (pids : Nat → Int)
    (dir : List Dirent) : State :=
  process_files gone
    { workers := init_workers mem pids, writes := [], log := [], killed := false } dir

/-! ### Sample inputs -/

/-- A worker table with the workers 1 and 3 idle and the workers 0 and 2
busy. -/
def odd_idle : Nat → WorkerState :=
  fun i =>
    { status := if i % 2 = 1 then WorkerStatus.WORKER_IDLE else WorkerStatus.WORKER_BUSY
      pid := 0
      files_processed := 0
      last_active := 0 }

/-- A memory content for the worker table before it is initialised. -/
def sample_mem : Nat → WorkerState :=
  fun _ => { status := WorkerStatus.WORKER_DONE, pid := 0, files_processed := 0, last_active := 0 }

/-- A source directory with eight entries, five of them regular files whose
name does not start with a dot. -/
def sample_dir : List Dirent :=
  [{ d_name := ".", is_reg := false }, { d_name := "a", is_reg := true },
   { d_name := ".hidden", is_reg := true }, { d_name := "b", is_reg := true },
   { d_name := "sub", is_reg := false }, { d_name := "c", is_reg := true },
   { d_name := "d", is_reg := true }, { d_name := "e", is_reg := true }]

/-- Every worker keeps reading: no write is refused. -/
def all_reading : Nat → Nat → Bool := fun _ _ => false

/-- Every worker has left before the first name is written. -/
def all_gone : Nat → Nat → Bool := fun _ _ => true

end CompressionTool

namespace Main

/-! ## Main.c -/

def NUM_WORKERS : Nat := 4
def MAX_FILENAME_LENGTH : Nat := 256
def TIMEOUT : Nat := 30

/-- The value of `EXIT_FAILURE` of `<stdlib.h>`. -/
def EXIT_FAILURE : Int := 1

/-- The size of the buffer `char status[10]` of `main` (Main.c 193) and of the
field `status` of a record. -/
def STATUS_SIZE : Nat := 10

/-- The `CompressionRecord` of Main.c, without its two timestamps.  The field
`status` is the C string the ten bytes of the field hold. -/
structure CompressionRecord where
  filename : String
  worker_pid : Int
  status : String
  deriving DecidableEq, Repr

/-- The `enum WorkerStatus` of Main.c (four values). -/
inductive WorkerStatus
  | WORKER_IDLE
  | WORKER_BUSY
  | WORKER_ERROR
  | WORKER_TERMINATED
  deriving DecidableEq, Repr

/-- The `WorkerPipes` of Main.c.  The two pipes of worker `i` are identified by
the index `i`: its job stream is `input_pipe` and its result stream is
`output_pipe`. -/
structure WorkerPipes where
  status : WorkerStatus
  pid : Int
  deriving DecidableEq, Repr

/-! ### The worker side -/

/-- One directory entry as `readdir` returns it, with the answer of
`stat(entry->d_name, &file_stat) == 0 && S_ISREG(file_stat.st_mode)` for it. -/
structure Dirent where
  d_name : String
  is_reg : Bool
  deriving DecidableEq, Repr

/-- What the environment answers to one `read(pipes[i].output_pipe[0], status,
sizeof(status))` (Main.c 194): the bytes the call delivers, none when it
returns 0 at end of file or -1, and the bytes the uninitialised buffer `status`
held before the call. -/
structure ReadAnswer where
  bytes : String
  stale : String
  deriving DecidableEq, Repr

/-- The byte NUL. -/
def NUL : Char := Char.ofNat 0

/-- The content of the field `record.status` after
`strncpy(record.status, status, sizeof(record.status))` (Main.c 201), as a C
string: the first `STATUS_SIZE` bytes of the buffer, which are the bytes read
followed by what the buffer held behind them, up to the first NUL.  `read`
writes no terminator.  When none of the ten bytes is NUL the field has no
terminator either and holds these ten bytes. -/
def status_field (answer : ReadAnswer) : String :=
  String.mk
    (((answer.bytes.data ++ answer.stale.data.drop answer.bytes.data.length).take
        STATUS_SIZE).takeWhile (fun c => c != NUL))

/-- What the dispatcher does to the outside, in program order: the job
descriptor written to worker `i` (Main.c 172), or the same write raising
SIGPIPE; the value `select` returned (183); the read on the result stream of
worker `i` with the environment's answer (194); the record handed to
`write_log_entry` (202); the sentinel written to worker `i` (213), or the same
write raising SIGPIPE; the reaping of worker `i` by `cleanup_resources`
(118-120), or the `waitpid` that never returns. -/
inductive Event
  | write_job (i : Nat) (d_name : String)
  | sigpipe_job (i : Nat) (d_name : String)
  | select (ret : Int)
  | read_result (i : Nat) (answer : ReadAnswer)
  | write_log_entry (record : CompressionRecord)
  | write_shutdown (i : Nat)
  | sigpipe_shutdown (i : Nat)
  | waitpid (i : Nat)
  | waitpid_blocks (i : Nat)
  deriving DecidableEq, Repr

/-- The dispatcher at one point of its run: the table `pipes` and everything
done so far. -/
structure State where
  pipes : Nat → WorkerPipes
  trace : List Event

/-- A run up to now: the current point and the points before it, the most
recent first. -/
structure Run where
  now : State
  past : List State

/-- Move to the next point of the run. -/
def Run.step (r : Run) (s : State) : Run :=
  { now := s, past := r.now :: r.past }

/-- The statement `pipes[i].status = status`. -/
def set_status (pipes : Nat → WorkerPipes) (i : Nat) (status : WorkerStatus) :
    Nat → WorkerPipes :=
  Function.update pipes i { pipes i with status := status }

/-- What the environment answers to the `write` and `waitpid` calls of the
dispatcher.  `gone t i`: after `t` events of the run the job stream of worker
`i` has no reader left, because the worker has exited (only the worker holds
the read end: the parent closes its copy at line 153 before the later forks);
a write to it raises SIGPIPE.  `stuck i`: `waitpid(pids[i], NULL, 0)` never
returns. -/
structure Env where
  gone : Nat → Nat → Bool
  stuck : Nat → Bool

/-- One answer of the environment to a `select` call: the call fails, or it
says for each worker whether its result stream is readable (a stream at end of
file is readable) and, if so, what the `read` that follows is answered. -/
inductive Readiness
  | failed
  | ready (answer : Nat → Option ReadAnswer)

/-- The descriptor set `select` leaves in `read_fds`: the registered result
streams that are readable. -/
def fds_after (read_fds : List Nat) : Readiness → Nat → Option ReadAnswer
  | Readiness.failed, _ => none
  | Readiness.ready answer, i => if i ∈ read_fds then answer i else none

/-- The value `select` returns: `-1` on failure, else the number of registered
descriptors that are readable (0 when the timeout expired with none). -/
def select_ret (read_fds : List Nat) : Readiness → Int
  | Readiness.failed => -1
  | Readiness.ready answer => ((read_fds.filter (fun i => (answer i).isSome)).length : Int)

/-- How the scan of the workers ends: the name was written and the loop left,
the write raised SIGPIPE and ended the process, or no worker was idle and the
result streams in `read_fds` are registered. -/
inductive Scan
  | assigned (r : Run)
  | killed (r : Run)
  | none_idle (read_fds : List Nat)

/-- The scan of the workers (Main.c 170-178): `k` iterations remain, the index
is `i` and `read_fds` holds the descriptors registered so far.  At the first
idle worker the name is written, the worker is set busy and the loop is left
(`assigned = 1`); when the job stream of that worker has no reader the write
raises SIGPIPE instead and the process ends inside the call.  A worker that is
not idle has its result stream registered. -/
def assign_scan (env : Env) (d_name : String) (r : Run) : Nat → Nat → List Nat → Scan
  | 0, _, read_fds => Scan.none_idle read_fds
  | k + 1, i, read_fds =>
    if (r.now.pipes i).status = WorkerStatus.WORKER_IDLE then
      if env.gone r.now.trace.length i then
        Scan.killed (r.step { r.now with trace := r.now.trace ++ [Event.sigpipe_job i d_name] })
      else
        Scan.assigned (r.step { pipes := set_status r.now.pipes i WorkerStatus.WORKER_BUSY
                                trace := r.now.trace ++ [Event.write_job i d_name] })
    else assign_scan env d_name r k (i + 1) (read_fds ++ [i])

/-- The loop over the ready workers (Main.c 191-204): `k` iterations remain and
the index is `i`.  For each worker whose descriptor is set, `read` is called,
the status becomes `WORKER_IDLE` whatever the call returned, and a record is
logged that carries the pending `entry->d_name`, the worker's pid and the
content of the buffer `status`. -/
def drain (d_name : String) (ready : Nat → Option ReadAnswer) : Nat → Nat → Run → Run
  | 0, _, r => r
  | k + 1, i, r =>
    match ready i with
    | some answer =>
      drain d_name ready k (i + 1)
        (r.step { pipes := set_status r.now.pipes i WorkerStatus.WORKER_IDLE
                  trace := r.now.trace ++
                    [Event.read_result i answer,
                     Event.write_log_entry
                       { filename := d_name, worker_pid := (r.now.pipes i).pid,
                         status := status_field answer }] })
    | none => drain d_name ready k (i + 1) r

/-- Where control is after a piece of the `readdir` loop: still running, with
the answers of the environment not yet used, gone through `exit(code)`, or
killed by SIGPIPE. -/
inductive Flow
  | running (r : Run) (oracle : List Readiness)
  | exited (code : Int) (r : Run)
  | killed (r : Run)

/-- The call of `select` (Main.c 183). -/
def select_step (r : Run) (ret : Int) : Run :=
  r.step { r.now with trace := r.now.trace ++ [Event.select ret] }

/-- The loop `while (!assigned)` (Main.c 168-206) for the pending entry
`d_name`.  The list holds the answers of the environment to the successive
`select` calls; once it is used up nothing becomes readable any more and
`select` returns 0 after `TIMEOUT` seconds. -/
def assign_loop (env : Env) (d_name : String) : List Readiness → Run → Flow
  | [], r =>
    match assign_scan env d_name r NUM_WORKERS 0 [] with
    | Scan.assigned r1 => Flow.running r1 []
    | Scan.killed r1 => Flow.killed r1
    | Scan.none_idle _ => Flow.exited EXIT_FAILURE (select_step r 0)
  | answer :: oracle, r =>
    match assign_scan env d_name r NUM_WORKERS 0 [] with
    | Scan.assigned r1 => Flow.running r1 (answer :: oracle)
    | Scan.killed r1 => Flow.killed r1
    | Scan.none_idle read_fds =>
      let ret := select_ret read_fds answer
      if ret = -1 then Flow.exited EXIT_FAILURE (select_step r ret)
      else if ret = 0 then Flow.exited EXIT_FAILURE (select_step r ret)
      else
        assign_loop env d_name oracle
          (drain d_name (fds_after read_fds answer) NUM_WORKERS 0 (select_step r ret))

/-- The `readdir` loop (Main.c 165-208) over the entries the directory stream
yields. -/
def dispatch_loop (env : Env) : List Dirent → List Readiness → Run → Flow
  | [], oracle, r => Flow.running r oracle
  | entry :: dir, oracle, r =>
    if entry.is_reg then
      match assign_loop env entry.d_name oracle r with
      | Flow.running r1 oracle1 => dispatch_loop env dir oracle1 r1
      | Flow.exited code r1 => Flow.exited code r1
      | Flow.killed r1 => Flow.killed r1
    else dispatch_loop env dir oracle r

/-- How the process `main` ends: it returns from `main`, it leaves through
`exit(code)`, it is killed by SIGPIPE, or it blocks in `waitpid` for ever. -/
inductive Ending
  | returned (code : Int)
  | exited (code : Int)
  | killed
  | blocked
  deriving DecidableEq, Repr

/-- The shutdown loop (Main.c 212-214): the sentinel goes to every worker; a
write to a job stream without reader raises SIGPIPE and ends the process. -/
def send_shutdown (env : Env) : Nat → Nat → Run → Option Ending × Run
  | 0, _, r => (none, r)
  | k + 1, i, r =>
    if env.gone r.now.trace.length i then
      (some Ending.killed,
        r.step { r.now with trace := r.now.trace ++ [Event.sigpipe_shutdown i] })
    else
      send_shutdown env k (i + 1)
        (r.step { r.now with trace := r.now.trace ++ [Event.write_shutdown i] })

/-- The function `cleanup_resources` (Main.c 116-122): the dispatcher's pipe
ends of worker `i` are closed and the worker is waited for; a `waitpid` that
never returns blocks the process. -/
def cleanup_resources (env : Env) : Nat → Nat → Run → Option Ending × Run
  | 0, _, r => (none, r)
  | k + 1, i, r =>
    if env.stuck i then
      (some Ending.blocked,
        r.step { r.now with trace := r.now.trace ++ [Event.waitpid_blocks i] })
    else
      cleanup_resources env k (i + 1)
        (r.step { r.now with trace := r.now.trace ++ [Event.waitpid i] })

/-- The table after the fork loop (Main.c 147-159): every worker is
`WORKER_IDLE` and carries the pid `fork` returned for it. -/
def init_pipes (pids : Nat → Int) : Nat → WorkerPipes :=
  fun i => { status := WorkerStatus.WORKER_IDLE, pid := pids i }

/-- The run at the top of the `readdir` loop, nothing done yet. -/
def start (pids : Nat → Int) : Run :=
  { now := { pipes := init_pipes pids, trace := [] }, past := [] }

/-- The rest of `main` from the top of the `readdir` loop (Main.c 165-219):
the dispatch loop, then the shutdown sentinels, the cleanup and `return 0`.
The result is how the process ends and the run. -/
def main_from (env : Env) (dir : List Dirent) (oracle : List Readiness) (r : Run) :
    Ending × Run :=
  match dispatch_loop env dir oracle r with
  | Flow.exited code r1 => (Ending.exited code, r1)
  | Flow.killed r1 => (Ending.killed, r1)
  | Flow.running r1 _ =>
    match send_shutdown env NUM_WORKERS 0 r1 with
    | (some how, r2) => (how, r2)
    | (none, r2) =>
      match cleanup_resources env NUM_WORKERS 0 r2 with
      | (some how, r3) => (how, r3)
      | (none, r3) => (Ending.returned 0, r3)

/-- The function `main` of Main.c from the fork loop on (141-219), after the
argument check and the decompression: `pids` are the pids of the workers,
`dir` the entries of the working directory and `oracle` the answers to the
`select` calls. -/
def main (env : Env) (pids : Nat → Int) (dir : List Dirent) (oracle : List Readiness) :
    Ending × Run :=
  main_from env dir oracle (start pids)

/-! ### Reading a run -/

/-- The run a piece of the `readdir` loop ends with. -/
def Flow.run : Flow → Run
  | Flow.running r _ => r
  | Flow.exited _ r => r
  | Flow.killed r => r

/-- The regular file names of a directory, in enumeration order. -/
def regular_names (dir : List Dirent) : List String :=
  (dir.filter (fun e => e.is_reg)).map Dirent.d_name

/-- The file name of a job write that was delivered. -/
def Event.job_name : Event → Option String
  | Event.write_job _ d_name => some d_name
  | _ => none

/-- The file names written to the job streams, across all workers, in write
order. -/
def job_names (trace : List Event) : List String :=
  trace.filterMap Event.job_name

/-- The record of a `write_log_entry` call. -/
def Event.record : Event → Option CompressionRecord
  | Event.write_log_entry record => some record
  | _ => none

/-- The records the dispatcher handed to `write_log_entry`, in order. -/
def records (trace : List Event) : List CompressionRecord :=
  trace.filterMap Event.record

/-- Whether the event writes a file name to worker `i`. -/
def Event.is_job_to (i : Nat) : Event → Bool
  | Event.write_job j _ => j == i
  | _ => false

/-- Whether the event is a read on the result stream of worker `i`. -/
def Event.is_read_from (i : Nat) : Event → Bool
  | Event.read_result j _ => j == i
  | _ => false

/-- The number of file names written to worker `i`. -/
def jobs_written (trace : List Event) (i : Nat) : Nat :=
  trace.countP (Event.is_job_to i)

/-- The number of reads made on the result stream of worker `i`, whether they
delivered a token or nothing. -/
def result_reads (trace : List Event) (i : Nat) : Nat :=
  trace.countP (Event.is_read_from i)

/-- Whether the event is not a `select` that failed or timed out. -/
def Event.wait_ok : Event → Bool
  | Event.select ret => decide (0 < ret)
  | _ => true

/-- No readiness wait of the trace failed or timed out. -/
def waits_ok (trace : List Event) : Bool :=
  trace.all Event.wait_ok

/-- Whether the event is not a write that raised SIGPIPE. -/
def Event.write_ok : Event → Bool
  | Event.sigpipe_job _ _ => false
  | Event.sigpipe_shutdown _ => false
  | _ => true

/-- No write of the trace raised SIGPIPE. -/
def writes_ok (trace : List Event) : Bool :=
  trace.all Event.write_ok

/-- What one iteration of the loop over the ready workers (Main.c 192-203) does
to the outside for worker `i` while `d_name` is the pending entry: nothing when
its descriptor is not set, else the read and the logging of the record built
from `d_name`, the worker's pid and the content of the buffer. -/
def drain_events (d_name : String) (pipes : Nat → WorkerPipes)
    (ready : Nat → Option ReadAnswer) (i : Nat) : List Event :=
  match ready i with
  | some answer =>
    [Event.read_result i answer,
     Event.write_log_entry
       { filename := d_name, worker_pid := (pipes i).pid, status := status_field answer }]
  | none => []

/-- The number of workers whose status is `WORKER_BUSY`. -/
def busy_count (pipes : Nat → WorkerPipes) : Nat :=
  (List.range NUM_WORKERS).countP
    (fun i => decide ((pipes i).status = WorkerStatus.WORKER_BUSY))

/-- The balance of a point of the run: for every worker the names written
exceed the reads on its result stream by one when it is busy and by nothing
otherwise, every worker is idle or busy, the names written are the records
logged plus the busy workers, and the table holds the pids `fork` returned. -/
def State.ok (pids : Nat → Int) (s : State) : Prop :=
  (∀ i, jobs_written s.trace i =
      result_reads s.trace i +
        (if (s.pipes i).status = WorkerStatus.WORKER_BUSY then 1 else 0))
  ∧ (∀ i, (s.pipes i).status = WorkerStatus.WORKER_IDLE ∨
      (s.pipes i).status = WorkerStatus.WORKER_BUSY)
  ∧ (job_names s.trace).length = (records s.trace).length + busy_count s.pipes
  ∧ (∀ i, (s.pipes i).pid = pids i)

/-- The point `s1` follows the point `s` by one step of a run over a directory
whose regular names are `names`: the trace grows; a file name goes to worker
`i` only if `i` is idle before the step and busy after it; a read on the result
stream of worker `i` is the whole step together with the record logged for it,
which carries the first of `names` not yet written, the pid of worker `i` and
the content of the buffer; and nothing is logged without a read. -/
def State.follows (pids : Nat → Int) (names : List String) (s1 s : State) : Prop :=
  ∃ evs, s1.trace = s.trace ++ evs
    ∧ (∀ i d_name, Event.write_job i d_name ∈ evs →
        (s.pipes i).status = WorkerStatus.WORKER_IDLE ∧
        (s1.pipes i).status = WorkerStatus.WORKER_BUSY)
    ∧ (∀ i answer, Event.read_result i answer ∈ evs →
        ∃ d_name, names[(job_names s.trace).length]? = some d_name ∧
          evs = [Event.read_result i answer,
                 Event.write_log_entry
                   { filename := d_name, worker_pid := pids i,
                     status := status_field answer }])
    ∧ (∀ record, Event.write_log_entry record ∈ evs →
        ∃ i answer, Event.read_result i answer ∈ evs)

/-- Every point of the run is balanced, each point follows the one before it,
and the run started with nothing done. -/
def Run.ok (pids : Nat → Int) (names : List String) (r : Run) : Prop :=
  (∀ s, s ∈ r.now :: r.past → s.ok pids)
  ∧ List.Chain' (State.follows pids names) (r.now :: r.past)
  ∧ ((r.now :: r.past).getLast?).map State.trace = some []

/-! ### Sample inputs -/

/-- Sample pids of the four workers: 100, 101, 102, 103. -/
def sample_pids : Nat → Int := fun i => 100 + (i : Int)

/-- A working directory with five regular files. -/
def sample_dir : List Dirent :=
  [{ d_name := "a.txt", is_reg := true }, { d_name := "b.txt", is_reg := true },
   { d_name := "c.txt", is_reg := true }, { d_name := "d.txt", is_reg := true },
   { d_name := "e.txt", is_reg := true }]

/-- A working directory whose first regular file is named like the sentinel. -/
def shutdown_dir : List Dirent :=
  [{ d_name := "SHUTDOWN", is_reg := true }, { d_name := "b", is_reg := true },
   { d_name := "c", is_reg := true }, { d_name := "d", is_reg := true },
   { d_name := "e", is_reg := true }, { d_name := "g", is_reg := true }]

/-- An environment where every worker keeps reading its job stream and every
`waitpid` returns. -/
def calm : Env :=
  { gone := fun _ _ => false, stuck := fun _ => false }

/-- An environment where worker 0 has exited once the dispatcher has done
anything, as after it took its first descriptor for the sentinel. -/
def worker0_gone : Env :=
  { gone := fun t i => decide (i = 0 ∧ 1 ≤ t), stuck := fun _ => false }

/-- A read that delivers the token `status` into a buffer that held the seven
bytes of "Success" and a NUL behind them. -/
def token (status : String) : ReadAnswer :=
  { bytes := status, stale := "Success" }

/-- A read at end of file: it returns 0 and delivers nothing. -/
def end_of_file : ReadAnswer :=
  { bytes := "", stale := "" }

/-- An answer of `select` where only the result stream of worker `i` is
readable and the read is answered `answer`. -/
def one_ready (i : Nat) (answer : ReadAnswer) : Readiness :=
  Readiness.ready (fun j => if j = i then some answer else none)

/-- An answer of `select` where the result streams of all four workers are
readable and every read is answered `answer`. -/
def all_ready (answer : ReadAnswer) : Readiness :=
  Readiness.ready (fun j => if j < NUM_WORKERS then some answer else none)

/-- A run at a point where the workers 1 and 3 are idle and the workers 0 and 2
busy. -/
def odd_idle : Run :=
  { now :=
      { pipes := fun i =>
          { status := if i % 2 = 1 then WorkerStatus.WORKER_IDLE else WorkerStatus.WORKER_BUSY
            pid := 0 }
        trace := [] }
    past := [] }

/-- The run after the first four sample files went to the four workers. -/
def four_busy : Run :=
  (dispatch_loop calm (sample_dir.take 4) [] (start sample_pids)).run

end Main

/-! ## Idle-worker lookup -/

section IdleLookupBusyWait

open CompressionTool

/-- When no worker of the scanned range is idle the loop of `find_idle_worker`
runs out and returns `-1`. -/
theorem find_idle_worker_loop_none (workers : Nat → WorkerState) (k i : Nat)
    (h : ∀ j, i ≤ j → j < i + k → (workers j).status ≠ WorkerStatus.WORKER_IDLE) :
    find_idle_worker_loop workers k i = -1 := by
  induction k generalizing i with
  | zero => rfl
  | succ k ih =>
    have h0 := h i (Nat.le_refl i) (by omega)
    simp only [find_idle_worker_loop, h0, if_false]
    exact ih (i + 1) (fun j h1 h2 => h j (by omega) (by omega))

/-- The loop of `find_idle_worker` returns the first idle index of the scanned
range. -/
theorem find_idle_worker_loop_first (workers : Nat → WorkerState) (k i m : Nat)
    (h1 : i ≤ m) (h2 : m < i + k) (hm : (workers m).status = WorkerStatus.WORKER_IDLE)
    (hlt : ∀ j, i ≤ j → j < m → (workers j).status ≠ WorkerStatus.WORKER_IDLE) :
    find_idle_worker_loop workers k i = (m : Int) := by
  induction k generalizing i with
  | zero => omega
  | succ k ih =>
    by_cases hi : i = m
    · subst hi
      simp only [find_idle_worker_loop, hm, if_true]
    · have h0 := hlt i (Nat.le_refl i) (by omega)
      simp only [find_idle_worker_loop, h0, if_false]
      exact ih (i + 1) (by omega) (by omega) (fun j h3 h4 => hlt j (by omega) h4)

end IdleLookupBusyWait

section IdleLookupSelect

open Main

/-- When no worker of the scanned range is idle the scan of the dispatch loop
assigns nothing and registers every worker of the range. -/
theorem assign_scan_none (env : Env) (d_name : String) (r : Run) (k i : Nat)
    (read_fds : List Nat)
    (h : ∀ j, i ≤ j → j < i + k → (r.now.pipes j).status ≠ WorkerStatus.WORKER_IDLE) :
    assign_scan env d_name r k i read_fds = Scan.none_idle (read_fds ++ List.range' i k) := by
  induction k generalizing i read_fds with
  | zero => simp [assign_scan]
  | succ k ih =>
    have h0 := h i (Nat.le_refl i) (by omega)
    simp only [assign_scan, h0, if_false]
    rw [ih (i + 1) (read_fds ++ [i]) (fun j h1 h2 => h j (by omega) (by omega))]
    simp [List.range'_succ]

/-- The scan of the dispatch loop writes the pending name to the first idle
worker of the scanned range: the write is delivered and the worker set busy, or
it raises SIGPIPE when the job stream of that worker has no reader. -/
theorem assign_scan_first (env : Env) (d_name : String) (r : Run) (k i m : Nat)
    (read_fds : List Nat) (h1 : i ≤ m) (h2 : m < i + k)
    (hm : (r.now.pipes m).status = WorkerStatus.WORKER_IDLE)
    (hlt : ∀ j, i ≤ j → j < m → (r.now.pipes j).status ≠ WorkerStatus.WORKER_IDLE) :
    assign_scan env d_name r k i read_fds =
      if env.gone r.now.trace.length m then
        Scan.killed (r.step { r.now with trace := r.now.trace ++ [Event.sigpipe_job m d_name] })
      else
        Scan.assigned (r.step { pipes := set_status r.now.pipes m WorkerStatus.WORKER_BUSY
                                trace := r.now.trace ++ [Event.write_job m d_name] }) := by
  induction k generalizing i read_fds with
  | zero => omega
  | succ k ih =>
    by_cases hi : i = m
    · subst hi
      simp only [assign_scan, hm, if_true]
    · have h0 := hlt i (Nat.le_refl i) (by omega)
      simp only [assign_scan, h0, if_false]
      exact ih (i + 1) (read_fds ++ [i]) (by omega) (by omega)
        (fun j h3 h4 => hlt j (by omega) h4)

end IdleLookupSelect

section IdleLookup

/-- A decidable property that holds somewhere below `n` holds at a least
index below `n`. -/
theorem exists_least_below (p : Nat → Prop) [DecidablePred p] (n : Nat)
    (h : ∃ i, i < n ∧ p i) : ∃ m, m < n ∧ p m ∧ ∀ j, j < m → ¬ p j := by
  have h1 : ∃ i, p i := by
    obtain ⟨i, _, hi⟩ := h
    exact ⟨i, hi⟩
  refine ⟨Nat.find h1, ?_, Nat.find_spec h1, fun j hj => Nat.find_min h1 hj⟩
  obtain ⟨i, hi, hp⟩ := h
  exact Nat.lt_of_le_of_lt (Nat.find_min' h1 hp) hi

/-- C1: `find_idle_worker` returns the smallest index below `NUM_WORKERS` whose
status is `WORKER_IDLE`, returns `-1` exactly when no worker is idle, never
selects `j` when an idle `i < j` exists, and the inline scan of the dispatch
loop of Main.c selects the same worker on a table with the same idle workers:
it finds none idle when `find_idle_worker` returns `-1`, and else writes the
name to the worker `find_idle_worker` returns (the write delivered and the
worker set busy, or refused with SIGPIPE when that worker has exited). -/
theorem find_idle_worker_lowest_id_first (workers : Nat → CompressionTool.WorkerState) :
    (∀ i, i < CompressionTool.NUM_WORKERS →
        (workers i).status = CompressionTool.WorkerStatus.WORKER_IDLE →
        (∀ j, j < i → (workers j).status ≠ CompressionTool.WorkerStatus.WORKER_IDLE) →
        CompressionTool.find_idle_worker workers = (i : Int))
    ∧ (CompressionTool.find_idle_worker workers = -1 ↔
        ∀ i, i < CompressionTool.NUM_WORKERS →
          (workers i).status ≠ CompressionTool.WorkerStatus.WORKER_IDLE)
    ∧ (∀ i j, i < j → j < CompressionTool.NUM_WORKERS →
        (workers i).status = CompressionTool.WorkerStatus.WORKER_IDLE →
        (workers j).status = CompressionTool.WorkerStatus.WORKER_IDLE →
        CompressionTool.find_idle_worker workers ≠ (j : Int))
    ∧ (∀ (env : Main.Env) (r : Main.Run) (d_name : String),
        (∀ i, i < Main.NUM_WORKERS →
          ((r.now.pipes i).status = Main.WorkerStatus.WORKER_IDLE ↔
            (workers i).status = CompressionTool.WorkerStatus.WORKER_IDLE)) →
        (CompressionTool.find_idle_worker workers = -1 ∧
          ∃ read_fds, Main.assign_scan env d_name r Main.NUM_WORKERS 0 [] =
            Main.Scan.none_idle read_fds)
        ∨ ∃ i, i < Main.NUM_WORKERS ∧ CompressionTool.find_idle_worker workers = (i : Int) ∧
            Main.assign_scan env d_name r Main.NUM_WORKERS 0 [] =
              if env.gone r.now.trace.length i then
                Main.Scan.killed (r.step
                  { r.now with trace := r.now.trace ++ [Main.Event.sigpipe_job i d_name] })
              else
                Main.Scan.assigned (r.step
                  { pipes := Main.set_status r.now.pipes i Main.WorkerStatus.WORKER_BUSY
                    trace := r.now.trace ++ [Main.Event.write_job i d_name] })) := by
  have hn1 : CompressionTool.NUM_WORKERS = 4 := rfl
  have hn2 : Main.NUM_WORKERS = 4 := rfl
  have first : ∀ i, i < CompressionTool.NUM_WORKERS →
      (workers i).status = CompressionTool.WorkerStatus.WORKER_IDLE →
      (∀ j, j < i → (workers j).status ≠ CompressionTool.WorkerStatus.WORKER_IDLE) →
      CompressionTool.find_idle_worker workers = (i : Int) := by
    intro i hi hidle hmin
    exact find_idle_worker_loop_first workers _ 0 i (Nat.zero_le i) (by omega) hidle
      (fun j _ hj => hmin j hj)
  have none_idle : (∀ i, i < CompressionTool.NUM_WORKERS →
      (workers i).status ≠ CompressionTool.WorkerStatus.WORKER_IDLE) →
      CompressionTool.find_idle_worker workers = -1 := by
    intro h
    exact find_idle_worker_loop_none workers _ 0 (fun j _ hj => h j (by omega))
  refine ⟨first, ⟨?_, none_idle⟩, ?_, ?_⟩
  · intro hret i hi hidle
    obtain ⟨m, hm, hmidle, hmin⟩ := exists_least_below
      (fun i => (workers i).status = CompressionTool.WorkerStatus.WORKER_IDLE) _ ⟨i, hi, hidle⟩
    rw [first m hm hmidle hmin] at hret
    omega
  · intro i j hij hj hi_idle _ hret
    obtain ⟨m, hm, hmidle, hmin⟩ := exists_least_below
      (fun i => (workers i).status = CompressionTool.WorkerStatus.WORKER_IDLE) _
      ⟨i, Nat.lt_trans hij hj, hi_idle⟩
    rw [first m hm hmidle hmin] at hret
    have hmj : m = j := by exact_mod_cast hret
    subst hmj
    exact hmin i hij hi_idle
  · intro env r d_name hsame
    by_cases hex : ∃ i, i < CompressionTool.NUM_WORKERS ∧
        (workers i).status = CompressionTool.WorkerStatus.WORKER_IDLE
    · obtain ⟨m, hm, hmidle, hmin⟩ := exists_least_below
        (fun i => (workers i).status = CompressionTool.WorkerStatus.WORKER_IDLE) _ hex
      refine Or.inr ⟨m, by omega, first m hm hmidle hmin, ?_⟩
      refine assign_scan_first env d_name r _ 0 m [] (Nat.zero_le m) (by omega)
        ((hsame m (by omega)).mpr hmidle) (fun j _ hj h => hmin j hj ?_)
      exact (hsame j (by omega)).mp h
    · refine Or.inl ⟨none_idle (fun i hi h => hex ⟨i, hi, h⟩),
        [] ++ List.range' 0 Main.NUM_WORKERS, ?_⟩
      exact assign_scan_none env d_name r _ 0 [] (fun j _ hj h =>
        hex ⟨j, by omega, (hsame j (by omega)).mp h⟩)

end IdleLookup

/-! ## The busy-wait variant -/

section BusyWait

open CompressionTool

/-- Either `find_idle_worker` returns `-1` and no worker is idle, or it returns
the least idle index. -/
theorem find_idle_worker_cases (workers : Nat → WorkerState) :
    (find_idle_worker workers = -1 ∧
      ∀ i, i < NUM_WORKERS → (workers i).status ≠ WorkerStatus.WORKER_IDLE)
    ∨ ∃ m, m < NUM_WORKERS ∧ find_idle_worker workers = (m : Int) ∧
        (workers m).status = WorkerStatus.WORKER_IDLE ∧
        ∀ j, j < m → (workers j).status ≠ WorkerStatus.WORKER_IDLE := by
  by_cases hex : ∃ i, i < NUM_WORKERS ∧ (workers i).status = WorkerStatus.WORKER_IDLE
  · obtain ⟨m, hm, hmidle, hmin⟩ := exists_least_below
      (fun i => (workers i).status = WorkerStatus.WORKER_IDLE) _ hex
    exact Or.inr ⟨m, hm, find_idle_worker_loop_first workers _ 0 m (Nat.zero_le m)
      (by omega) hmidle (fun j _ hj => hmin j hj), hmidle, hmin⟩
  · exact Or.inl ⟨find_idle_worker_loop_none workers _ 0
      (fun j _ hj h => hex ⟨j, by omega, h⟩), fun i hi h => hex ⟨i, hi, h⟩⟩

/-- The status of worker `i` after `workers[worker_id].status = WORKER_BUSY`. -/
theorem set_busy_status (workers : Nat → WorkerState) (worker_id i : Nat) :
    (set_busy workers worker_id i).status =
      if i = worker_id then WorkerStatus.WORKER_BUSY else (workers i).status := by
  unfold set_busy
  by_cases h : i = worker_id
  · subst h
    simp
  · simp [Function.update_noteq h, h]

/-- A name that fits a `d_name` field fits the path buffer behind
`source_dir`. -/
theorem filepath_fits (d_name : String) (h : strlen d_name < MAX_FILENAME_LENGTH) :
    ¬ (((strlen source_dir + 1 + strlen d_name : Nat) : Int) < 0 ∨
        ((strlen source_dir + 1 + strlen d_name : Nat) : Int) ≥ (MAX_PATH_LENGTH : Int)) := by
  have h1 : strlen source_dir = 14 := by decide
  have h2 : MAX_FILENAME_LENGTH = 256 := rfl
  have h3 : MAX_PATH_LENGTH = 4096 := rfl
  omega

/-- The pairing of the first names with the worker indices only grows at its
end when names are appended. -/
theorem enum_take_append (n : Nat) (a b : List String) :
    ∃ rest, ((a ++ b).take n).enum = (a.take n).enum ++ rest := by
  rw [List.take_append_eq_append_take, List.enum_append]
  exact ⟨_, rfl⟩

/-- One iteration of the file loop from a state that fits the names that passed
the filters so far (the first `min n NUM_WORKERS` workers busy, the others
idle, the writes pairing the first names with the worker indices in order):
either the state after it fits the names with the entry's name added when it
passes the filters, or the process is killed inside the write of that name to
the next worker. -/
theorem process_entry_shape (gone : Nat → Nat → Bool) (s : State) (names : List String)
    (e : Dirent) (hlen : strlen e.d_name < MAX_FILENAME_LENGTH)
    (hbusy : ∀ i, i < names.length → i < NUM_WORKERS →
      (s.workers i).status = WorkerStatus.WORKER_BUSY)
    (hidle : ∀ i, names.length ≤ i → i < NUM_WORKERS →
      (s.workers i).status = WorkerStatus.WORKER_IDLE)
    (hw : s.writes = (names.take NUM_WORKERS).enum)
    (hk : s.killed = false) :
    ((process_entry gone s e).killed = false
      ∧ (∀ i, i < (names ++ (if (!starts_with_dot e.d_name && e.is_reg) = true
            then [e.d_name] else [])).length → i < NUM_WORKERS →
          ((process_entry gone s e).workers i).status = WorkerStatus.WORKER_BUSY)
      ∧ (∀ i, (names ++ (if (!starts_with_dot e.d_name && e.is_reg) = true
            then [e.d_name] else [])).length ≤ i → i < NUM_WORKERS →
          ((process_entry gone s e).workers i).status = WorkerStatus.WORKER_IDLE)
      ∧ (process_entry gone s e).writes =
          ((names ++ (if (!starts_with_dot e.d_name && e.is_reg) = true
            then [e.d_name] else [])).take NUM_WORKERS).enum)
    ∨ ((process_entry gone s e).killed = true
      ∧ (!starts_with_dot e.d_name && e.is_reg) = true
      ∧ names.length < NUM_WORKERS
      ∧ gone s.writes.length names.length = true
      ∧ (process_entry gone s e).writes = s.writes ++ [(names.length, e.d_name)]) := by
  have hn : NUM_WORKERS = 4 := rfl
  unfold process_entry
  by_cases hdot : starts_with_dot e.d_name = true
  · simp only [hdot, if_true]
    exact Or.inl (by simpa using ⟨hk, hbusy, hidle, hw⟩)
  · rw [if_neg hdot]
    simp only [filepath_fits e.d_name hlen, if_false]
    by_cases hreg : e.is_reg = true
    swap
    · rw [if_neg hreg]
      exact Or.inl (by simpa [hreg] using ⟨hk, hbusy, hidle, hw⟩)
    · have hd : starts_with_dot e.d_name = false := by simpa using hdot
      rw [if_pos hreg]
      simp only [hreg, hd, Bool.not_false, Bool.and_self, if_true]
      rcases find_idle_worker_cases s.workers with ⟨hret, hnone⟩ | ⟨m, hm, hret, hmidle, hmin⟩
      · have hfull : NUM_WORKERS ≤ names.length := by
          by_contra hlt
          exact hnone names.length (by omega) (hidle _ (Nat.le_refl _) (by omega))
        simp only [hret, show ¬ ((-1 : Int) ≥ 0) by decide, if_false]
        refine Or.inl ⟨hk, fun i _ hi => hbusy i (by omega) hi, fun i hi1 hi => ?_, ?_⟩
        · simp only [List.length_append, List.length_singleton] at hi1
          omega
        · rw [List.take_append_of_le_length hfull]
          exact hw
      · have hmn : m = names.length := by
          by_contra hne
          rcases Nat.lt_or_gt_of_ne hne with h | h
          · have := hbusy m h hm
            rw [hmidle] at this
            exact absurd this (by decide)
          · exact hmin names.length h (hidle _ (Nat.le_refl _) (by omega))
        subst hmn
        simp only [hret, show ((names.length : Nat) : Int) ≥ 0 by omega, if_true,
          Int.toNat_ofNat]
        by_cases hgone : gone s.writes.length names.length = true
        · rw [if_pos hgone]
          exact Or.inr ⟨rfl, trivial, hm, hgone, rfl⟩
        · rw [if_neg hgone]
          refine Or.inl ⟨rfl, fun i hi1 hi2 => ?_, fun i hi1 hi2 => ?_, ?_⟩
          · rw [set_busy_status]
            by_cases h : i = names.length
            · simp [h]
            · simp only [h, if_false]
              simp only [List.length_append, List.length_singleton] at hi1
              exact hbusy i (by omega) hi2
          · rw [set_busy_status]
            simp only [List.length_append, List.length_singleton] at hi1
            have h : i ≠ names.length := by omega
            simp only [h, if_false]
            exact hidle i (by omega) hi2
          · rw [hw, List.take_of_length_le (show names.length ≤ NUM_WORKERS by omega),
              List.take_of_length_le (show (names ++ [e.d_name]).length ≤ NUM_WORKERS by
                simp only [List.length_append, List.length_singleton]; omega),
              List.enum_append, List.enumFrom_singleton]

/-- The file loop over any list of entries, from a state that fits the names
that passed the filters so far: the writes start the pairing of the first
`NUM_WORKERS` names with the worker indices, they are the whole pairing when
the process is not killed, and the process is not killed when no write is
refused. -/
theorem process_files_shape (gone : Nat → Nat → Bool) (dir : List Dirent) (s : State)
    (names : List String)
    (hlen : ∀ e, e ∈ dir → strlen e.d_name < MAX_FILENAME_LENGTH)
    (hbusy : ∀ i, i < names.length → i < NUM_WORKERS →
      (s.workers i).status = WorkerStatus.WORKER_BUSY)
    (hidle : ∀ i, names.length ≤ i → i < NUM_WORKERS →
      (s.workers i).status = WorkerStatus.WORKER_IDLE)
    (hw : s.writes = (names.take NUM_WORKERS).enum)
    (hk : s.killed = false) :
    (∃ rest, ((names ++ (dir.filter (fun e => !starts_with_dot e.d_name && e.is_reg)).map
          Dirent.d_name).take NUM_WORKERS).enum = (process_files gone s dir).writes ++ rest
        ∧ ((process_files gone s dir).killed = false → rest = []))
    ∧ ((∀ n i, gone n i = false) → (process_files gone s dir).killed = false) := by
  induction dir generalizing s names with
  | nil =>
    simp only [process_files, List.filter_nil, List.map_nil, List.append_nil]
    exact ⟨⟨[], by simp [hw], fun _ => rfl⟩, fun _ => hk⟩
  | cons e dir ih =>
    have hadd : (names ++ ((e :: dir).filter
          (fun e => !starts_with_dot e.d_name && e.is_reg)).map Dirent.d_name) =
        (names ++ (if (!starts_with_dot e.d_name && e.is_reg) = true then [e.d_name] else []))
          ++ (dir.filter (fun e => !starts_with_dot e.d_name && e.is_reg)).map
            Dirent.d_name := by
      by_cases hp : (!starts_with_dot e.d_name && e.is_reg) = true
      · simp [List.filter_cons, hp]
      · simp [List.filter_cons, hp]
    rcases process_entry_shape gone s names e (hlen e (List.mem_cons_self e dir))
      hbusy hidle hw hk with ⟨h0, h1, h2, h3⟩ | ⟨h0, helig, hlt, hgone, hwr⟩
    · have := ih (process_entry gone s e) _
        (fun e1 he1 => hlen e1 (List.mem_cons_of_mem e he1)) h1 h2 h3 h0
      simp only [process_files, h0, Bool.false_eq_true, if_false]
      rw [hadd]
      exact this
    · simp only [process_files, h0, if_true]
      refine ⟨?_, fun hnever => ?_⟩
      · rw [hadd, hwr, hw]
        simp only [helig, if_true]
        have hn : NUM_WORKERS = 4 := rfl
        obtain ⟨rest, hrest⟩ := enum_take_append NUM_WORKERS (names ++ [e.d_name])
          ((dir.filter (fun e => !starts_with_dot e.d_name && e.is_reg)).map Dirent.d_name)
        refine ⟨rest, ?_, fun hkf => ?_⟩
        · rw [hrest, List.take_of_length_le (show names.length ≤ NUM_WORKERS by omega),
            List.take_of_length_le (show (names ++ [e.d_name]).length ≤ NUM_WORKERS by
              simp only [List.length_append, List.length_singleton]; omega),
            List.enum_append, List.enumFrom_singleton]
        · exact absurd hkf (by decide)
      · rw [hnever] at hgone
        exact absurd hgone (by decide)

/-- C10, amended: in the busy-wait variant one iteration of the file loop
changes a worker's status only from idle to busy, and over a whole enumeration
of names that fit `d_name` the write calls start the pairing of the first
`min N NUM_WORKERS` regular names not starting with a dot with the workers 0,
1, 2, 3 in that order; they are the whole pairing unless the process is killed
by SIGPIPE inside a write, which no run is when no write finds its worker
gone; so at most `NUM_WORKERS` names are written and later files are
skipped. -/
theorem busy_wait_writes_first_names_in_order :
    (∀ (gone : Nat → Nat → Bool) (s : CompressionTool.State) (e : CompressionTool.Dirent)
        (i : Nat),
        ((CompressionTool.process_entry gone s e).workers i).status ≠ (s.workers i).status →
        (s.workers i).status = CompressionTool.WorkerStatus.WORKER_IDLE ∧
        ((CompressionTool.process_entry gone s e).workers i).status =
          CompressionTool.WorkerStatus.WORKER_BUSY)
    ∧ ∀ (gone : Nat → Nat → Bool) (mem : Nat → CompressionTool.WorkerState)
        (pids : Nat → Int) (dir : List CompressionTool.Dirent),
        (∀ e, e ∈ dir → CompressionTool.strlen e.d_name < CompressionTool.MAX_FILENAME_LENGTH) →
        (∃ rest, (((dir.filter
              (fun e => !CompressionTool.starts_with_dot e.d_name && e.is_reg)).map
            CompressionTool.Dirent.d_name).take CompressionTool.NUM_WORKERS).enum =
              (CompressionTool.main gone mem pids dir).writes ++ rest
          ∧ ((CompressionTool.main gone mem pids dir).killed = false → rest = []))
        ∧ (CompressionTool.main gone mem pids dir).writes.length ≤ CompressionTool.NUM_WORKERS
        ∧ ((∀ n i, gone n i = false) →
            (CompressionTool.main gone mem pids dir).killed = false) := by
  refine ⟨fun gone s e i hne => ?_, fun gone mem pids dir hlen => ?_⟩
  · unfold process_entry at hne ⊢
    by_cases hdot : starts_with_dot e.d_name = true
    · simp [hdot] at hne
    · rw [if_neg hdot] at hne ⊢
      dsimp only at hne ⊢
      by_cases hlong : ((strlen source_dir + 1 + strlen e.d_name : Nat) : Int) < 0 ∨
          ((strlen source_dir + 1 + strlen e.d_name : Nat) : Int) ≥ (MAX_PATH_LENGTH : Int)
      · rw [if_pos hlong] at hne
        exact absurd rfl hne
      · rw [if_neg hlong] at hne ⊢
        by_cases hreg : e.is_reg = true
        swap
        · rw [if_neg hreg] at hne
          exact absurd rfl hne
        · rw [if_pos hreg] at hne ⊢
          rcases find_idle_worker_cases s.workers with
            ⟨hret, _⟩ | ⟨m, hm, hret, hmidle, hmin⟩
          · simp [hret] at hne
          · simp only [hret, show ((m : Nat) : Int) ≥ 0 by omega, if_true,
              Int.toNat_ofNat] at hne ⊢
            by_cases hgone : gone s.writes.length m = true
            · rw [if_pos hgone] at hne
              exact absurd rfl hne
            · rw [if_neg hgone] at hne ⊢
              simp only [set_busy_status] at hne ⊢
              by_cases him : i = m
              · subst him
                simp [hmidle]
              · simp [him] at hne
  · have h := process_files_shape gone dir
      { workers := init_workers mem pids, writes := [], log := [], killed := false } []
      hlen (fun i hi _ => absurd hi (by simp))
      (fun i _ hi => by simp [init_workers, hi]) (by simp) rfl
    simp only [List.nil_append] at h
    obtain ⟨⟨rest, h1, h2⟩, h3⟩ := h
    refine ⟨⟨rest, h1, h2⟩, ?_, h3⟩
    have hlen2 := congrArg List.length h1
    rw [List.enum_length, List.length_take, List.length_append] at hlen2
    have := Nat.min_le_left CompressionTool.NUM_WORKERS
      ((dir.filter (fun e => !starts_with_dot e.d_name && e.is_reg)).map Dirent.d_name).length
    unfold CompressionTool.main
    omega

end BusyWait

/-! ## The dispatch loop: the points of a run -/

section InFlight

open Main

/-- The status of worker `j` after `pipes[i].status = status`. -/
theorem set_status_status (pipes : Nat → WorkerPipes) (i j : Nat) (status : WorkerStatus) :
    (set_status pipes i status j).status = if j = i then status else (pipes j).status := by
  unfold set_status
  by_cases h : j = i
  · subst h
    simp
  · simp [Function.update_noteq h, h]

/-- The statement `pipes[i].status = status` leaves every pid alone. -/
theorem set_status_pid (pipes : Nat → WorkerPipes) (i j : Nat) (status : WorkerStatus) :
    (set_status pipes i status j).pid = (pipes j).pid := by
  unfold set_status
  by_cases h : j = i
  · subst h
    simp
  · simp [Function.update_noteq h]

/-- Setting an idle worker busy adds one busy worker. -/
theorem busy_count_set_busy (pipes : Nat → WorkerPipes) (i : Nat) (hi : i < NUM_WORKERS)
    (h : (pipes i).status = WorkerStatus.WORKER_IDLE) :
    busy_count (set_status pipes i WorkerStatus.WORKER_BUSY) = busy_count pipes + 1 := by
  have hn : NUM_WORKERS = 4 := rfl
  have hr : List.range 4 = [0, 1, 2, 3] := by decide
  rw [hn] at hi
  simp only [busy_count, hn, hr, List.countP_cons, List.countP_nil, set_status_status]
  interval_cases i <;> simp [h] <;> omega

/-- Setting a busy worker idle removes one busy worker. -/
theorem busy_count_set_idle (pipes : Nat → WorkerPipes) (i : Nat) (hi : i < NUM_WORKERS)
    (h : (pipes i).status = WorkerStatus.WORKER_BUSY) :
    busy_count (set_status pipes i WorkerStatus.WORKER_IDLE) + 1 = busy_count pipes := by
  have hn : NUM_WORKERS = 4 := rfl
  have hr : List.range 4 = [0, 1, 2, 3] := by decide
  rw [hn] at hi
  simp only [busy_count, hn, hr, List.countP_cons, List.countP_nil, set_status_status]
  interval_cases i <;> simp [h] <;> omega

/-- A balanced point reached by one step from the current point of a good run
extends the run to a good run. -/
theorem Run_ok_step (pids : Nat → Int) (names : List String) (r : Run) (s : State)
    (hr : r.ok pids names) (hs : s.ok pids) (hf : State.follows pids names s r.now) :
    (r.step s).ok pids names := by
  obtain ⟨h1, h2, h3⟩ := hr
  refine ⟨?_, ?_, ?_⟩
  · intro s1 hs1
    simp only [Run.step, List.mem_cons] at hs1
    rcases hs1 with rfl | hs1
    · exact hs
    · exact h1 s1 (by simpa using hs1)
  · simp only [Run.step]
    exact List.Chain'.cons hf h2
  · simp only [Run.step]
    rw [List.getLast?_cons_cons]
    exact h3

/-- The current point of a good run is balanced. -/
theorem Run_ok_now (pids : Nat → Int) (names : List String) (r : Run)
    (hr : r.ok pids names) : r.now.ok pids :=
  hr.1 r.now (List.mem_cons_self _ _)

/-- The assignment of a name to an idle worker keeps the point balanced. -/
theorem assign_ok (pids : Nat → Int) (s : State) (i : Nat) (d_name : String)
    (hs : s.ok pids) (hi : i < NUM_WORKERS)
    (h : (s.pipes i).status = WorkerStatus.WORKER_IDLE) :
    State.ok pids { pipes := set_status s.pipes i WorkerStatus.WORKER_BUSY
                    trace := s.trace ++ [Event.write_job i d_name] } := by
  obtain ⟨h1, h2, h3, h4⟩ := hs
  refine ⟨fun j => ?_, fun j => ?_, ?_, fun j => ?_⟩
  · have := h1 j
    simp only [jobs_written, result_reads, List.countP_append, List.countP_cons,
      List.countP_nil, Event.is_job_to, Event.is_read_from, set_status_status] at this ⊢
    by_cases hj : j = i
    · subst hj
      simp [h] at this ⊢
      omega
    · have hj2 : ¬ i = j := fun e => hj e.symm
      simp [hj, hj2] at this ⊢
      omega
  · rw [set_status_status]
    by_cases hj : j = i
    · simp [hj]
    · simp only [hj, if_false]
      exact h2 j
  · simp only [job_names, records, List.filterMap_append, List.length_append] at h3 ⊢
    rw [busy_count_set_busy s.pipes i hi h]
    simp [Event.job_name, Event.record]
    omega
  · rw [set_status_pid]
    exact h4 j

/-- The reading of the result stream of a busy worker keeps the point
balanced. -/
theorem read_ok (pids : Nat → Int) (s : State) (i : Nat) (answer : ReadAnswer)
    (record : CompressionRecord) (hs : s.ok pids) (hi : i < NUM_WORKERS)
    (h : (s.pipes i).status = WorkerStatus.WORKER_BUSY) :
    State.ok pids { pipes := set_status s.pipes i WorkerStatus.WORKER_IDLE
                    trace := s.trace ++
                      [Event.read_result i answer, Event.write_log_entry record] } := by
  obtain ⟨h1, h2, h3, h4⟩ := hs
  refine ⟨fun j => ?_, fun j => ?_, ?_, fun j => ?_⟩
  · have := h1 j
    simp only [jobs_written, result_reads, List.countP_append, List.countP_cons,
      List.countP_nil, Event.is_job_to, Event.is_read_from, set_status_status] at this ⊢
    by_cases hj : j = i
    · subst hj
      simp [h] at this ⊢
      omega
    · have hj2 : ¬ i = j := fun e => hj e.symm
      simp [hj, hj2] at this ⊢
      omega
  · rw [set_status_status]
    by_cases hj : j = i
    · simp [hj]
    · simp only [hj, if_false]
      exact h2 j
  · simp only [job_names, records, List.filterMap_append, List.length_append] at h3 ⊢
    have := busy_count_set_idle s.pipes i hi h
    simp [Event.job_name, Event.record]
    omega
  · rw [set_status_pid]
    exact h4 j

/-- An event that is neither a delivered job write nor a read nor a log entry
keeps the point balanced. -/
theorem quiet_ok (pids : Nat → Int) (s : State) (e : Event) (hs : s.ok pids)
    (h1 : ∀ i, Event.is_job_to i e = false) (h2 : ∀ i, Event.is_read_from i e = false)
    (h3 : Event.job_name e = none) (h4 : Event.record e = none) :
    State.ok pids { s with trace := s.trace ++ [e] } := by
  obtain ⟨g1, g2, g3, g4⟩ := hs
  refine ⟨fun j => ?_, g2, ?_, g4⟩
  · have := g1 j
    simp only [jobs_written, result_reads, List.countP_append, List.countP_cons,
      List.countP_nil, h1, h2] at this ⊢
    simpa using this
  · simp only [job_names, records, List.filterMap_append, List.length_append] at g3 ⊢
    simp [h3, h4]
    omega

/-- Such an event is a step of the run. -/
theorem quiet_follows (pids : Nat → Int) (names : List String) (s : State) (e : Event)
    (h2 : ∀ i, Event.is_read_from i e = false)
    (h3 : Event.job_name e = none) (h4 : Event.record e = none) :
    State.follows pids names { s with trace := s.trace ++ [e] } s := by
  refine ⟨[e], rfl, fun i d_name hmem => ?_, fun i answer hmem => ?_, fun record hmem => ?_⟩
  · simp only [List.mem_singleton] at hmem
    subst hmem
    simp [Event.job_name] at h3
  · simp only [List.mem_singleton] at hmem
    subst hmem
    have := h2 i
    simp [Event.is_read_from] at this
  · simp only [List.mem_singleton] at hmem
    subst hmem
    simp [Event.record] at h4

/-- An event of that kind extends a good run to a good run. -/
theorem quiet_step_ok (pids : Nat → Int) (names : List String) (r : Run) (e : Event)
    (hr : r.ok pids names)
    (h1 : ∀ i, Event.is_job_to i e = false) (h2 : ∀ i, Event.is_read_from i e = false)
    (h3 : Event.job_name e = none) (h4 : Event.record e = none) :
    (r.step { r.now with trace := r.now.trace ++ [e] }).ok pids names :=
  Run_ok_step pids names r _ hr
    (quiet_ok pids r.now e (Run_ok_now pids names r hr) h1 h2 h3 h4)
    (quiet_follows pids names r.now e h2 h3 h4)

end InFlight

/-! ## The loop over the ready workers -/

section Drain

open Main

/-- The events of the loop over the ready workers depend on the table only
through the pids. -/
theorem drain_events_congr (d_name : String) (p1 p2 : Nat → WorkerPipes)
    (ready : Nat → Option ReadAnswer) (h : ∀ j, (p1 j).pid = (p2 j).pid) :
    drain_events d_name p1 ready = drain_events d_name p2 ready := by
  funext j
  unfold drain_events
  cases ready j with
  | none => rfl
  | some answer => simp [h j]

/-- What the loop over the ready workers does, in any state: it appends, in
index order, the read and the record of every worker whose descriptor is set,
sets exactly these workers idle and changes no pid. -/
theorem drain_effect (d_name : String) (ready : Nat → Option ReadAnswer) (k i : Nat)
    (r : Run) :
    (drain d_name ready k i r).now.trace =
        r.now.trace ++ (List.range' i k).flatMap (drain_events d_name r.now.pipes ready)
    ∧ (∀ j, ((drain d_name ready k i r).now.pipes j).status =
        if i ≤ j ∧ j < i + k ∧ ready j ≠ none then WorkerStatus.WORKER_IDLE
        else (r.now.pipes j).status)
    ∧ (∀ j, ((drain d_name ready k i r).now.pipes j).pid = (r.now.pipes j).pid) := by
  induction k generalizing i r with
  | zero =>
    refine ⟨by simp [drain], fun j => ?_, fun j => rfl⟩
    have : ¬ (i ≤ j ∧ j < i + 0 ∧ ready j ≠ none) := by omega
    simp only [this, if_false]
    rfl
  | succ k ih =>
    have hshift : ∀ j, j ≠ i → ((i + 1 ≤ j ∧ j < i + 1 + k ∧ ready j ≠ none) ↔
        (i ≤ j ∧ j < i + (k + 1) ∧ ready j ≠ none)) := by
      intro j hj
      constructor
      · rintro ⟨a, b, c⟩
        exact ⟨by omega, by omega, c⟩
      · rintro ⟨a, b, c⟩
        exact ⟨by omega, by omega, c⟩
    cases hready : ready i with
    | none =>
      obtain ⟨h1, h2, h3⟩ := ih (i + 1) r
      simp only [drain, hready]
      refine ⟨?_, fun j => ?_, h3⟩
      · rw [h1, List.range'_succ, List.flatMap_cons]
        simp [drain_events, hready]
      · rw [h2 j]
        by_cases hj : j = i
        · subst hj
          simp [hready]
        · simp only [hshift j hj]
    | some answer =>
      obtain ⟨h1, h2, h3⟩ := ih (i + 1)
        (r.step { pipes := set_status r.now.pipes i WorkerStatus.WORKER_IDLE
                  trace := r.now.trace ++
                    [Event.read_result i answer,
                     Event.write_log_entry
                       { filename := d_name, worker_pid := (r.now.pipes i).pid,
                         status := status_field answer }] })
      simp only [drain, hready]
      simp only [Run.step] at h1 h2 h3 ⊢
      refine ⟨?_, fun j => ?_, fun j => ?_⟩
      · rw [h1, List.range'_succ, List.flatMap_cons,
          drain_events_congr d_name (set_status r.now.pipes i WorkerStatus.WORKER_IDLE)
            r.now.pipes ready (fun j => set_status_pid _ _ _ _)]
        simp [drain_events, hready]
      · rw [h2 j, set_status_status]
        by_cases hj : j = i
        · subst hj
          simp [hready]
        · simp only [hshift j hj, hj, if_false]
      · rw [h3 j, set_status_pid]

/-- A read and its record are no file names. -/
theorem job_names_read (trace : List Event) (i : Nat) (answer : ReadAnswer)
    (record : CompressionRecord) :
    job_names (trace ++ [Event.read_result i answer, Event.write_log_entry record]) =
      job_names trace := by
  simp [job_names, List.filterMap_append, Event.job_name]

/-- The loop over the ready workers keeps a run good when every worker it
reads from is busy and the pending entry is the first regular name not yet
written. -/
theorem drain_ok (pids : Nat → Int) (names : List String) (d_name : String)
    (ready : Nat → Option ReadAnswer) (k i : Nat) (r : Run)
    (hr : r.ok pids names) (hk : i + k ≤ NUM_WORKERS)
    (hb : ∀ j, i ≤ j → j < i + k → ready j ≠ none →
      (r.now.pipes j).status = WorkerStatus.WORKER_BUSY)
    (hpend : names[(job_names r.now.trace).length]? = some d_name) :
    (drain d_name ready k i r).ok pids names := by
  induction k generalizing i r with
  | zero => exact hr
  | succ k ih =>
    cases hready : ready i with
    | none =>
      simp only [drain, hready]
      exact ih (i + 1) r hr (by omega) (fun j h1 h2 h3 => hb j (by omega) (by omega) h3) hpend
    | some answer =>
      simp only [drain, hready]
      have hbusy := hb i (Nat.le_refl i) (by omega) (by simp [hready])
      have hpid := (Run_ok_now pids names r hr).2.2.2 i
      refine ih (i + 1) _ (Run_ok_step pids names r _ hr
        (read_ok pids r.now i answer _ (Run_ok_now pids names r hr) (by omega) hbusy)
        ⟨_, rfl, fun j d hmem => by simp at hmem, fun j a hmem => ?_, fun record _ =>
          ⟨i, answer, by simp⟩⟩) (by omega) (fun j h1 h2 h3 => ?_) ?_
      · simp only [List.mem_cons, Event.read_result.injEq, List.mem_singleton,
          reduceCtorEq, or_false, List.not_mem_nil] at hmem
        obtain ⟨rfl, rfl⟩ := hmem
        exact ⟨d_name, hpend, by rw [hpid]⟩
      · simp only [Run.step, set_status_status]
        have hj : j ≠ i := by omega
        simp only [hj, if_false]
        exact hb j (by omega) (by omega) h3
      · simp only [Run.step]
        rw [job_names_read]
        exact hpend

end Drain

/-! ## The loop `while (!assigned)` -/

section AssignLoop

open Main

/-- The scan of the dispatch loop either finds every worker not idle, assigns
nothing and registers all the result streams, or writes the pending name to an
idle worker: delivered, or refused with SIGPIPE. -/
theorem assign_scan_cases (env : Env) (d_name : String) (r : Run) :
    ((∀ j, j < NUM_WORKERS → (r.now.pipes j).status ≠ WorkerStatus.WORKER_IDLE) ∧
      assign_scan env d_name r NUM_WORKERS 0 [] = Scan.none_idle (List.range' 0 NUM_WORKERS))
    ∨ ∃ m, m < NUM_WORKERS ∧ (r.now.pipes m).status = WorkerStatus.WORKER_IDLE ∧
        assign_scan env d_name r NUM_WORKERS 0 [] =
          if env.gone r.now.trace.length m then
            Scan.killed
              (r.step { r.now with trace := r.now.trace ++ [Event.sigpipe_job m d_name] })
          else
            Scan.assigned
              (r.step { pipes := set_status r.now.pipes m WorkerStatus.WORKER_BUSY
                        trace := r.now.trace ++ [Event.write_job m d_name] }) := by
  by_cases hex : ∃ i, i < NUM_WORKERS ∧ (r.now.pipes i).status = WorkerStatus.WORKER_IDLE
  · obtain ⟨m, hm, hmidle, hmin⟩ := exists_least_below
      (fun i => (r.now.pipes i).status = WorkerStatus.WORKER_IDLE) _ hex
    exact Or.inr ⟨m, hm, hmidle, assign_scan_first env d_name r NUM_WORKERS 0 m []
      (Nat.zero_le m) (by omega) hmidle (fun j _ hj => hmin j hj)⟩
  · refine Or.inl ⟨fun j hj h => hex ⟨j, hj, h⟩, ?_⟩
    rw [assign_scan_none env d_name r NUM_WORKERS 0 [] (fun j _ hj h => hex ⟨j, by omega, h⟩)]
    simp

/-- The loop over the ready workers writes no file name. -/
theorem job_names_drain_events (d_name : String) (pipes : Nat → WorkerPipes)
    (ready : Nat → Option ReadAnswer) (l : List Nat) :
    job_names (l.flatMap (drain_events d_name pipes ready)) = [] := by
  induction l with
  | nil => rfl
  | cons j l ih =>
    rw [List.flatMap_cons]
    unfold job_names at ih ⊢
    rw [List.filterMap_append, ih]
    unfold drain_events
    cases ready j <;> simp [Event.job_name]

/-- The loop over the ready workers waits for nothing. -/
theorem waits_ok_drain_events (d_name : String) (pipes : Nat → WorkerPipes)
    (ready : Nat → Option ReadAnswer) (l : List Nat) :
    waits_ok (l.flatMap (drain_events d_name pipes ready)) = true := by
  induction l with
  | nil => rfl
  | cons j l ih =>
    rw [List.flatMap_cons]
    unfold waits_ok at ih ⊢
    rw [List.all_append, ih]
    unfold drain_events
    cases ready j <;> simp [Event.wait_ok]

/-- The loop over the ready workers writes to no job stream. -/
theorem writes_ok_drain_events (d_name : String) (pipes : Nat → WorkerPipes)
    (ready : Nat → Option ReadAnswer) (l : List Nat) :
    writes_ok (l.flatMap (drain_events d_name pipes ready)) = true := by
  induction l with
  | nil => rfl
  | cons j l ih =>
    rw [List.flatMap_cons]
    unfold writes_ok at ih ⊢
    rw [List.all_append, ih]
    unfold drain_events
    cases ready j <;> simp [Event.write_ok]

/-- The value `select` returns is `-1` or a count. -/
theorem select_ret_ge (read_fds : List Nat) (answer : Readiness) :
    -1 ≤ select_ret read_fds answer := by
  cases answer with
  | failed => simp [select_ret]
  | ready status =>
    simp only [select_ret]
    omega

/-- The call of `select` keeps a run good. -/
theorem select_step_ok (pids : Nat → Int) (names : List String) (r : Run) (ret : Int)
    (hr : r.ok pids names) : (select_step r ret).ok pids names :=
  quiet_step_ok pids names r (Event.select ret) hr (fun _ => rfl) (fun _ => rfl) rfl rfl

/-- What the assignment found by the scan leaves behind. -/
theorem assign_step_facts (pids : Nat → Int) (names : List String) (r : Run)
    (d_name : String) (hr : r.ok pids names) (m : Nat)
    (hm : m < NUM_WORKERS) (hidle : (r.now.pipes m).status = WorkerStatus.WORKER_IDLE) :
    (r.step { pipes := set_status r.now.pipes m WorkerStatus.WORKER_BUSY
              trace := r.now.trace ++ [Event.write_job m d_name] }).ok pids names ∧
    job_names (r.now.trace ++ [Event.write_job m d_name]) = job_names r.now.trace ++ [d_name] ∧
    waits_ok (r.now.trace ++ [Event.write_job m d_name]) = waits_ok r.now.trace ∧
    writes_ok (r.now.trace ++ [Event.write_job m d_name]) = writes_ok r.now.trace ∧
    (∃ j, j < NUM_WORKERS ∧
      (set_status r.now.pipes m WorkerStatus.WORKER_BUSY j).status =
        WorkerStatus.WORKER_BUSY) := by
  refine ⟨?_, ?_, ?_, ?_, m, hm, by simp [set_status_status]⟩
  · refine Run_ok_step pids names r _ hr
      (assign_ok pids r.now m d_name (Run_ok_now pids names r hr) hm hidle)
      ⟨[Event.write_job m d_name], rfl, fun i d hmem => ?_, fun i a hmem => ?_,
        fun record hmem => ?_⟩
    · simp only [List.mem_singleton, Event.write_job.injEq] at hmem
      obtain ⟨rfl, rfl⟩ := hmem
      exact ⟨hidle, by simp [set_status_status]⟩
    · simp at hmem
    · simp at hmem
  · simp [job_names, List.filterMap_append, Event.job_name]
  · simp [waits_ok, List.all_append, Event.wait_ok]
  · simp [writes_ok, List.all_append, Event.write_ok]

/-- What a write of a name that raises SIGPIPE leaves behind. -/
theorem sigpipe_job_facts (pids : Nat → Int) (names : List String) (r : Run)
    (d_name : String) (hr : r.ok pids names) (m : Nat) :
    (r.step { r.now with trace := r.now.trace ++ [Event.sigpipe_job m d_name] }).ok pids names ∧
    job_names (r.now.trace ++ [Event.sigpipe_job m d_name]) = job_names r.now.trace ∧
    waits_ok (r.now.trace ++ [Event.sigpipe_job m d_name]) = waits_ok r.now.trace ∧
    writes_ok (r.now.trace ++ [Event.sigpipe_job m d_name]) = false := by
  refine ⟨quiet_step_ok pids names r _ hr (fun _ => rfl) (fun _ => rfl) rfl rfl, ?_, ?_, ?_⟩
  · simp [job_names, List.filterMap_append, Event.job_name]
  · simp [waits_ok, List.all_append, Event.wait_ok]
  · simp [writes_ok, List.all_append, Event.write_ok]

/-- What a wait that failed or timed out leaves behind. -/
theorem select_fail_facts (pids : Nat → Int) (names : List String) (r : Run)
    (hr : r.ok pids names) (ret : Int) (hret : ret ≤ 0) :
    (select_step r ret).ok pids names ∧
    job_names (select_step r ret).now.trace = job_names r.now.trace ∧
    waits_ok (select_step r ret).now.trace = false ∧
    writes_ok (select_step r ret).now.trace = writes_ok r.now.trace ∧
    ∃ r0 ret0, ret0 ≤ 0 ∧ select_step r ret = select_step r0 ret0 := by
  refine ⟨select_step_ok pids names r ret hr, ?_, ?_, ?_, r, ret, hret, rfl⟩
  · simp [select_step, Run.step, job_names, List.filterMap_append, Event.job_name]
  · simp [select_step, Run.step, waits_ok, List.all_append, Event.wait_ok]
    intro _
    omega
  · simp [select_step, Run.step, writes_ok, List.all_append, Event.write_ok]

/-- What the loop `while (!assigned)` leaves behind when the pending entry is
the first regular name not yet written.  Either control goes on: the run is
good, the pending name is the one name written, no wait failed, no write was
refused and a worker is busy.  Or the process is gone with `EXIT_FAILURE`: the
run is good, no name was written and the last thing done is a wait that failed
or timed out.  Or the process is killed: the run is good, no name was written,
no wait failed and a write was refused. -/
theorem assign_loop_flow (pids : Nat → Int) (names : List String) (env : Env)
    (d_name : String) (oracle : List Readiness) (r : Run) (hr : r.ok pids names)
    (hpend : names[(job_names r.now.trace).length]? = some d_name) :
    (∃ r1 oracle1, assign_loop env d_name oracle r = Flow.running r1 oracle1 ∧
        r1.ok pids names ∧
        job_names r1.now.trace = job_names r.now.trace ++ [d_name] ∧
        waits_ok r1.now.trace = waits_ok r.now.trace ∧
        writes_ok r1.now.trace = writes_ok r.now.trace ∧
        (∃ j, j < NUM_WORKERS ∧ (r1.now.pipes j).status = WorkerStatus.WORKER_BUSY))
    ∨ (∃ r1, assign_loop env d_name oracle r = Flow.exited EXIT_FAILURE r1 ∧
        r1.ok pids names ∧
        job_names r1.now.trace = job_names r.now.trace ∧
        waits_ok r1.now.trace = false ∧
        writes_ok r1.now.trace = writes_ok r.now.trace ∧
        ∃ r0 ret, ret ≤ 0 ∧ r1 = select_step r0 ret)
    ∨ (∃ r1, assign_loop env d_name oracle r = Flow.killed r1 ∧
        r1.ok pids names ∧
        job_names r1.now.trace = job_names r.now.trace ∧
        waits_ok r1.now.trace = waits_ok r.now.trace ∧
        writes_ok r1.now.trace = false) := by
  induction oracle generalizing r with
  | nil =>
    rcases assign_scan_cases env d_name r with ⟨_, hscan⟩ | ⟨m, hm, hidle, hscan⟩
    · refine Or.inr (Or.inl ⟨select_step r 0, ?_, select_fail_facts pids names r hr 0
        (Int.le_refl 0)⟩)
      simp only [assign_loop, hscan]
    · by_cases hgone : env.gone r.now.trace.length m = true
      · rw [if_pos hgone] at hscan
        refine Or.inr (Or.inr ⟨_, ?_, sigpipe_job_facts pids names r d_name hr m⟩)
        simp only [assign_loop, hscan]
      · rw [if_neg hgone] at hscan
        obtain ⟨a1, a2, a3, a4, a5⟩ := assign_step_facts pids names r d_name hr m hm hidle
        refine Or.inl ⟨_, [], ?_, a1, a2, a3, a4, a5⟩
        simp only [assign_loop, hscan]
  | cons answer oracle ih =>
    rcases assign_scan_cases env d_name r with ⟨hnone, hscan⟩ | ⟨m, hm, hidle, hscan⟩
    swap
    · by_cases hgone : env.gone r.now.trace.length m = true
      · rw [if_pos hgone] at hscan
        refine Or.inr (Or.inr ⟨_, ?_, sigpipe_job_facts pids names r d_name hr m⟩)
        simp only [assign_loop, hscan]
      · rw [if_neg hgone] at hscan
        obtain ⟨a1, a2, a3, a4, a5⟩ := assign_step_facts pids names r d_name hr m hm hidle
        refine Or.inl ⟨_, answer :: oracle, ?_, a1, a2, a3, a4, a5⟩
        simp only [assign_loop, hscan]
    · simp only [assign_loop, hscan]
      by_cases h1 : select_ret (List.range' 0 NUM_WORKERS) answer = -1
      · rw [if_pos h1]
        exact Or.inr (Or.inl ⟨_, rfl, select_fail_facts pids names r hr _ (by omega)⟩)
      · rw [if_neg h1]
        by_cases h0 : select_ret (List.range' 0 NUM_WORKERS) answer = 0
        · rw [if_pos h0]
          exact Or.inr (Or.inl ⟨_, rfl, select_fail_facts pids names r hr _ (by omega)⟩)
        · rw [if_neg h0]
          have hpos : 0 < select_ret (List.range' 0 NUM_WORKERS) answer := by
            have := select_ret_ge (List.range' 0 NUM_WORKERS) answer
            omega
          have hsel := select_step_ok pids names r
            (select_ret (List.range' 0 NUM_WORKERS) answer) hr
          have hselnames : job_names (select_step r
              (select_ret (List.range' 0 NUM_WORKERS) answer)).now.trace =
              job_names r.now.trace := by
            simp [select_step, Run.step, job_names, List.filterMap_append, Event.job_name]
          have hfds : ∀ j, fds_after (List.range' 0 NUM_WORKERS) answer j ≠ none →
              j < NUM_WORKERS := by
            intro j hj
            cases answer with
            | failed => simp [fds_after] at hj
            | ready status =>
              simp only [fds_after] at hj
              by_cases hmem : j ∈ List.range' 0 NUM_WORKERS
              · simp only [List.mem_range'_1] at hmem
                omega
              · simp [hmem] at hj
          have hdr := drain_ok pids names d_name
            (fds_after (List.range' 0 NUM_WORKERS) answer)
            NUM_WORKERS 0 _ hsel (by omega) (fun j _ _ hj => by
              have hlt := hfds j hj
              rcases (Run_ok_now pids names r hr).2.1 j with hi | hb
              · exact absurd hi (hnone j hlt)
              · exact hb) (by rw [hselnames]; exact hpend)
          obtain ⟨e1, _, _⟩ := drain_effect d_name
            (fds_after (List.range' 0 NUM_WORKERS) answer) NUM_WORKERS 0
            (select_step r (select_ret (List.range' 0 NUM_WORKERS) answer))
          have hj : job_names (drain d_name (fds_after (List.range' 0 NUM_WORKERS) answer)
              NUM_WORKERS 0 (select_step r (select_ret (List.range' 0 NUM_WORKERS)
                answer))).now.trace = job_names r.now.trace := by
            rw [e1]
            unfold job_names
            rw [List.filterMap_append]
            have := job_names_drain_events d_name
              (select_step r (select_ret (List.range' 0 NUM_WORKERS) answer)).now.pipes
              (fds_after (List.range' 0 NUM_WORKERS) answer) (List.range' 0 NUM_WORKERS)
            unfold job_names at this
            rw [this]
            simp [select_step, Run.step, List.filterMap_append, Event.job_name]
          have hw : waits_ok (drain d_name (fds_after (List.range' 0 NUM_WORKERS) answer)
              NUM_WORKERS 0 (select_step r (select_ret (List.range' 0 NUM_WORKERS)
                answer))).now.trace = waits_ok r.now.trace := by
            rw [e1]
            unfold waits_ok
            rw [List.all_append]
            have := waits_ok_drain_events d_name
              (select_step r (select_ret (List.range' 0 NUM_WORKERS) answer)).now.pipes
              (fds_after (List.range' 0 NUM_WORKERS) answer) (List.range' 0 NUM_WORKERS)
            unfold waits_ok at this
            rw [this]
            simp [select_step, Run.step, List.all_append, Event.wait_ok, hpos]
          have hwr : writes_ok (drain d_name (fds_after (List.range' 0 NUM_WORKERS) answer)
              NUM_WORKERS 0 (select_step r (select_ret (List.range' 0 NUM_WORKERS)
                answer))).now.trace = writes_ok r.now.trace := by
            rw [e1]
            unfold writes_ok
            rw [List.all_append]
            have := writes_ok_drain_events d_name
              (select_step r (select_ret (List.range' 0 NUM_WORKERS) answer)).now.pipes
              (fds_after (List.range' 0 NUM_WORKERS) answer) (List.range' 0 NUM_WORKERS)
            unfold writes_ok at this
            rw [this]
            simp [select_step, Run.step, List.all_append, Event.write_ok]
          rcases ih _ hdr (by rw [hj]; exact hpend) with
            ⟨r1, o1, g1, g2, g3, g4, g5, g6⟩ | ⟨r1, g1, g2, g3, g4, g5, g6⟩ |
            ⟨r1, g1, g2, g3, g4, g5⟩
          · refine Or.inl ⟨r1, o1, g1, g2, ?_, ?_, ?_, g6⟩
            · rw [g3, hj]
            · rw [g4, hw]
            · rw [g5, hwr]
          · refine Or.inr (Or.inl ⟨r1, g1, g2, ?_, g4, ?_, g6⟩)
            · rw [g3, hj]
            · rw [g5, hwr]
          · refine Or.inr (Or.inr ⟨r1, g1, g2, ?_, ?_, g5⟩)
            · rw [g3, hj]
            · rw [g4, hw]

/-- With an idle worker whose job stream has a reader the loop
`while (!assigned)` assigns at once and uses no answer of the environment. -/
theorem assign_loop_idle (env : Env) (d_name : String) (oracle : List Readiness) (r : Run)
    (hcalm : ∀ t i, env.gone t i = false)
    (h : ∃ j, j < NUM_WORKERS ∧ (r.now.pipes j).status = WorkerStatus.WORKER_IDLE) :
    ∃ r1, assign_loop env d_name oracle r = Flow.running r1 oracle := by
  rcases assign_scan_cases env d_name r with ⟨hnone, _⟩ | ⟨m, hm, hidle, hscan⟩
  · obtain ⟨j, hj, hidle⟩ := h
    exact absurd hidle (hnone j hj)
  · rw [hcalm] at hscan
    simp only [Bool.false_eq_true, if_false] at hscan
    cases oracle with
    | nil =>
      exact ⟨(r.step
        { pipes := set_status r.now.pipes m WorkerStatus.WORKER_BUSY
          trace := r.now.trace ++ [Event.write_job m d_name] }),
        by simp only [assign_loop, hscan]⟩
    | cons answer oracle =>
      exact ⟨(r.step
        { pipes := set_status r.now.pipes m WorkerStatus.WORKER_BUSY
          trace := r.now.trace ++ [Event.write_job m d_name] }),
        by simp only [assign_loop, hscan]⟩

/-- When the next wait succeeds and no write is refused the loop
`while (!assigned)` goes on after at most that one wait. -/
theorem assign_loop_answered (env : Env) (d_name : String) (answer : Readiness)
    (oracle : List Readiness) (r : Run) (hcalm : ∀ t i, env.gone t i = false)
    (h : 0 < select_ret (List.range' 0 NUM_WORKERS) answer) :
    ∃ r1 oracle1, assign_loop env d_name (answer :: oracle) r = Flow.running r1 oracle1 ∧
      (oracle1 = answer :: oracle ∨ oracle1 = oracle) := by
  rcases assign_scan_cases env d_name r with ⟨hnone, hscan⟩ | ⟨m, hm, hidle, hscan⟩
  swap
  · rw [hcalm] at hscan
    simp only [Bool.false_eq_true, if_false] at hscan
    exact ⟨(r.step
        { pipes := set_status r.now.pipes m WorkerStatus.WORKER_BUSY
          trace := r.now.trace ++ [Event.write_job m d_name] }), answer :: oracle,
      by simp only [assign_loop, hscan], Or.inl rfl⟩
  · simp only [assign_loop, hscan]
    rw [if_neg (by omega), if_neg (by omega)]
    have hready : ∃ j, j < NUM_WORKERS ∧
        fds_after (List.range' 0 NUM_WORKERS) answer j ≠ none := by
      cases answer with
      | failed => simp [select_ret] at h
      | ready status =>
        simp only [select_ret] at h
        have hpos : 0 < ((List.range' 0 NUM_WORKERS).filter
            (fun i => (status i).isSome)).length := by omega
        obtain ⟨j, hj⟩ := List.exists_mem_of_length_pos hpos
        rw [List.mem_filter] at hj
        refine ⟨j, ?_, ?_⟩
        · have := hj.1
          simp only [List.mem_range'_1] at this
          omega
        · simp only [fds_after, hj.1, if_true]
          intro hnone
          simp [hnone] at hj
    obtain ⟨j, hj, hset⟩ := hready
    obtain ⟨_, e2, _⟩ := drain_effect d_name
      (fds_after (List.range' 0 NUM_WORKERS) answer) NUM_WORKERS 0
      (select_step r (select_ret (List.range' 0 NUM_WORKERS) answer))
    obtain ⟨r1, hr1⟩ := assign_loop_idle env d_name oracle
      (drain d_name (fds_after (List.range' 0 NUM_WORKERS) answer) NUM_WORKERS 0
        (select_step r (select_ret (List.range' 0 NUM_WORKERS) answer))) hcalm
      ⟨j, hj, by
        rw [e2 j, if_pos ⟨Nat.zero_le j, by omega, hset⟩]⟩
    exact ⟨r1, oracle, hr1, Or.inr rfl⟩

end AssignLoop

/-! ## The `readdir` loop, the shutdown phase and `main` -/

section Dispatch

open Main

/-- The regular names of a directory that starts with a regular entry. -/
theorem regular_names_cons_reg (e : Dirent) (dir : List Dirent) (h : e.is_reg = true) :
    regular_names (e :: dir) = e.d_name :: regular_names dir := by
  simp [regular_names, List.filter_cons, h]

/-- The regular names of a directory that starts with another entry. -/
theorem regular_names_cons_other (e : Dirent) (dir : List Dirent) (h : ¬ e.is_reg = true) :
    regular_names (e :: dir) = regular_names dir := by
  simp [regular_names, List.filter_cons, h]

/-- What the `readdir` loop leaves behind, from a good run whose names written
followed by the regular names still to come are `names`.  Either control goes
on: the run is good, the names written are `names`, no wait failed, no write
was refused, and a worker is busy unless there was no regular file, in which
case nothing happened.  Or the process is gone with `EXIT_FAILURE` or killed:
the run is good, the names written start `names`, and a wait failed or timed
out in the first case and a write was refused in the second. -/
theorem dispatch_loop_flow (pids : Nat → Int) (names : List String) (env : Env)
    (dir : List Dirent) (oracle : List Readiness) (r : Run) (hr : r.ok pids names)
    (hnames : names = job_names r.now.trace ++ regular_names dir) :
    (∃ r1 oracle1, dispatch_loop env dir oracle r = Flow.running r1 oracle1 ∧
        r1.ok pids names ∧
        job_names r1.now.trace = names ∧
        waits_ok r1.now.trace = waits_ok r.now.trace ∧
        writes_ok r1.now.trace = writes_ok r.now.trace ∧
        (regular_names dir ≠ [] →
          ∃ j, j < NUM_WORKERS ∧ (r1.now.pipes j).status = WorkerStatus.WORKER_BUSY) ∧
        (regular_names dir = [] → r1 = r))
    ∨ (∃ r1, dispatch_loop env dir oracle r = Flow.exited EXIT_FAILURE r1 ∧
        r1.ok pids names ∧
        (∃ rest, names = job_names r1.now.trace ++ rest) ∧
        waits_ok r1.now.trace = false ∧
        writes_ok r1.now.trace = writes_ok r.now.trace ∧
        ∃ r0 ret, ret ≤ 0 ∧ r1 = select_step r0 ret)
    ∨ (∃ r1, dispatch_loop env dir oracle r = Flow.killed r1 ∧
        r1.ok pids names ∧
        (∃ rest, names = job_names r1.now.trace ++ rest) ∧
        waits_ok r1.now.trace = waits_ok r.now.trace ∧
        writes_ok r1.now.trace = false) := by
  induction dir generalizing oracle r with
  | nil =>
    refine Or.inl ⟨r, oracle, rfl, hr, ?_, rfl, rfl, fun h => absurd rfl h, fun _ => rfl⟩
    rw [hnames]
    simp [regular_names]
  | cons e dir ih =>
    by_cases hreg : e.is_reg = true
    swap
    · rw [regular_names_cons_other e dir hreg] at hnames ⊢
      simp only [dispatch_loop, hreg]
      exact ih oracle r hr hnames
    · rw [regular_names_cons_reg e dir hreg] at hnames ⊢
      simp only [dispatch_loop, hreg, if_true]
      have hpend : names[(job_names r.now.trace).length]? = some e.d_name := by
        rw [hnames, List.getElem?_append_right (Nat.le_refl _)]
        simp
      rcases assign_loop_flow pids names env e.d_name oracle r hr hpend with
        ⟨r1, o1, g1, g2, g3, g4, g5, g6⟩ | ⟨r1, g1, g2, g3, g4, g5, g6⟩ |
        ⟨r1, g1, g2, g3, g4, g5⟩
      · rw [g1]
        have hnames1 : names = job_names r1.now.trace ++ regular_names dir := by
          rw [g3, hnames]
          simp
        rcases ih o1 r1 g2 hnames1 with
          ⟨r2, o2, k1, k2, k3, k4, k5, k6, k7⟩ | ⟨r2, k1, k2, k3, k4, k5, k6⟩ |
          ⟨r2, k1, k2, k3, k4, k5⟩
        · refine Or.inl ⟨r2, o2, k1, k2, k3, ?_, ?_, fun _ => ?_, fun h => ?_⟩
          · rw [k4, g4]
          · rw [k5, g5]
          · by_cases hd : regular_names dir = []
            · rw [k7 hd]
              exact g6
            · exact k6 hd
          · simp at h
        · refine Or.inr (Or.inl ⟨r2, k1, k2, k3, k4, ?_, k6⟩)
          rw [k5, g5]
        · refine Or.inr (Or.inr ⟨r2, k1, k2, k3, ?_, k5⟩)
          rw [k4, g4]
      · rw [g1]
        refine Or.inr (Or.inl ⟨r1, rfl, g2, ⟨e.d_name :: regular_names dir, ?_⟩, g4, g5, g6⟩)
        rw [g3, hnames]
      · rw [g1]
        refine Or.inr (Or.inr ⟨r1, rfl, g2, ⟨e.d_name :: regular_names dir, ?_⟩, g4, g5⟩)
        rw [g3, hnames]

/-- When every wait the environment can answer succeeds, there are at least as
many answers as regular files and no write is refused, the `readdir` loop runs
to its end. -/
theorem dispatch_loop_answered (env : Env) (dir : List Dirent) (oracle : List Readiness)
    (r : Run) (hcalm : ∀ t i, env.gone t i = false)
    (hgood : ∀ a, a ∈ oracle → 0 < select_ret (List.range' 0 NUM_WORKERS) a)
    (hlen : (regular_names dir).length ≤ oracle.length) :
    ∃ r1 oracle1, dispatch_loop env dir oracle r = Flow.running r1 oracle1 := by
  induction dir generalizing oracle r with
  | nil => exact ⟨r, oracle, rfl⟩
  | cons e dir ih =>
    by_cases hreg : e.is_reg = true
    swap
    · simp only [dispatch_loop, hreg]
      rw [regular_names_cons_other e dir hreg] at hlen
      exact ih oracle r hgood hlen
    · simp only [dispatch_loop, hreg, if_true]
      rw [regular_names_cons_reg e dir hreg, List.length_cons] at hlen
      cases oracle with
      | nil => simp at hlen
      | cons answer oracle =>
        obtain ⟨r1, o1, h1, h2⟩ := assign_loop_answered env e.d_name answer oracle r hcalm
          (hgood answer (List.mem_cons_self _ _))
        rw [h1]
        simp only [List.length_cons] at hlen
        rcases h2 with rfl | rfl
        · exact ih _ r1 hgood (by simp only [List.length_cons]; omega)
        · exact ih _ r1 (fun a ha => hgood a (List.mem_cons_of_mem _ ha)) (by omega)

/-- What the shutdown loop leaves behind: a good run, the table, the names
written, the records and the waits as they were; it ends the process only by a
refused write, and refuses none when it goes on. -/
theorem send_shutdown_facts (pids : Nat → Int) (names : List String) (env : Env)
    (k i : Nat) (r : Run) (hr : r.ok pids names) :
    (send_shutdown env k i r).2.ok pids names
    ∧ (send_shutdown env k i r).2.now.pipes = r.now.pipes
    ∧ job_names (send_shutdown env k i r).2.now.trace = job_names r.now.trace
    ∧ records (send_shutdown env k i r).2.now.trace = records r.now.trace
    ∧ waits_ok (send_shutdown env k i r).2.now.trace = waits_ok r.now.trace
    ∧ ((send_shutdown env k i r).1 = none ∨
        (send_shutdown env k i r).1 = some Ending.killed)
    ∧ ((send_shutdown env k i r).1 = none →
        writes_ok (send_shutdown env k i r).2.now.trace = writes_ok r.now.trace)
    ∧ ((∀ t j, env.gone t j = false) → (send_shutdown env k i r).1 = none) := by
  induction k generalizing i r with
  | zero =>
    exact ⟨hr, rfl, rfl, rfl, rfl, Or.inl rfl, fun _ => rfl, fun _ => rfl⟩
  | succ k ih =>
    by_cases hgone : env.gone r.now.trace.length i = true
    · have e : send_shutdown env (k + 1) i r = (some Ending.killed,
          r.step { r.now with trace := r.now.trace ++ [Event.sigpipe_shutdown i] }) := by
        simp only [send_shutdown, hgone, if_true]
      rw [e]
      refine ⟨quiet_step_ok pids names r _ hr (fun _ => rfl) (fun _ => rfl) rfl rfl, rfl,
        ?_, ?_, ?_, Or.inr rfl, fun h => by simp at h, fun hcalm => ?_⟩
      · simp [Run.step, job_names, List.filterMap_append, Event.job_name]
      · simp [Run.step, records, List.filterMap_append, Event.record]
      · simp [Run.step, waits_ok, List.all_append, Event.wait_ok]
      · rw [hcalm] at hgone
        exact absurd hgone (by decide)
    · have e : send_shutdown env (k + 1) i r = send_shutdown env k (i + 1)
          (r.step { r.now with trace := r.now.trace ++ [Event.write_shutdown i] }) := by
        simp only [send_shutdown, hgone, Bool.false_eq_true, if_false]
      rw [e]
      obtain ⟨h1, h2, h3, h4, h5, h6, h7, h8⟩ := ih (i + 1)
        (r.step { r.now with trace := r.now.trace ++ [Event.write_shutdown i] })
        (quiet_step_ok pids names r _ hr (fun _ => rfl) (fun _ => rfl) rfl rfl)
      refine ⟨h1, h2, ?_, ?_, ?_, h6, fun h => ?_, h8⟩
      · rw [h3]
        simp [Run.step, job_names, List.filterMap_append, Event.job_name]
      · rw [h4]
        simp [Run.step, records, List.filterMap_append, Event.record]
      · rw [h5]
        simp [Run.step, waits_ok, List.all_append, Event.wait_ok]
      · rw [h7 h]
        simp [Run.step, writes_ok, List.all_append, Event.write_ok]

/-- What the cleanup leaves behind: a good run, the table, the names written
and the records as they were; it ends the process only by a `waitpid` that
never returns. -/
theorem cleanup_resources_facts (pids : Nat → Int) (names : List String) (env : Env)
    (k i : Nat) (r : Run) (hr : r.ok pids names) :
    (cleanup_resources env k i r).2.ok pids names
    ∧ (cleanup_resources env k i r).2.now.pipes = r.now.pipes
    ∧ job_names (cleanup_resources env k i r).2.now.trace = job_names r.now.trace
    ∧ records (cleanup_resources env k i r).2.now.trace = records r.now.trace
    ∧ ((cleanup_resources env k i r).1 = none ∨
        (cleanup_resources env k i r).1 = some Ending.blocked) := by
  induction k generalizing i r with
  | zero =>
    exact ⟨hr, rfl, rfl, rfl, Or.inl rfl⟩
  | succ k ih =>
    by_cases hstuck : env.stuck i = true
    · have e : cleanup_resources env (k + 1) i r = (some Ending.blocked,
          r.step { r.now with trace := r.now.trace ++ [Event.waitpid_blocks i] }) := by
        simp only [cleanup_resources, hstuck, if_true]
      rw [e]
      refine ⟨quiet_step_ok pids names r _ hr (fun _ => rfl) (fun _ => rfl) rfl rfl, rfl,
        ?_, ?_, Or.inr rfl⟩
      · simp [Run.step, job_names, List.filterMap_append, Event.job_name]
      · simp [Run.step, records, List.filterMap_append, Event.record]
    · have e : cleanup_resources env (k + 1) i r = cleanup_resources env k (i + 1)
          (r.step { r.now with trace := r.now.trace ++ [Event.waitpid i] }) := by
        simp only [cleanup_resources, hstuck, Bool.false_eq_true, if_false]
      rw [e]
      obtain ⟨h1, h2, h3, h4, h5⟩ := ih (i + 1)
        (r.step { r.now with trace := r.now.trace ++ [Event.waitpid i] })
        (quiet_step_ok pids names r _ hr (fun _ => rfl) (fun _ => rfl) rfl rfl)
      refine ⟨h1, h2, ?_, ?_, h5⟩
      · rw [h3]
        simp [Run.step, job_names, List.filterMap_append, Event.job_name]
      · rw [h4]
        simp [Run.step, records, List.filterMap_append, Event.record]

/-- The run `main` starts with is good. -/
theorem start_ok (pids : Nat → Int) (names : List String) : (start pids).ok pids names := by
  refine ⟨fun s hs => ?_, List.chain'_singleton _, rfl⟩
  simp only [start, List.mem_singleton] at hs
  subst hs
  refine ⟨fun i => ?_, fun i => Or.inl rfl, ?_, fun i => rfl⟩
  · simp [jobs_written, result_reads, init_pipes]
  · simp [job_names, records, busy_count, init_pipes]

/-- What the rest of `main` leaves behind, from a good run whose names written
followed by the regular names still to come are `names`: the run is good and
the names written start `names`; when `main` returns, it returns 0, the names
written are `names`, and a worker is busy unless there was no regular file;
and when it leaves through `exit`, the status is `EXIT_FAILURE`. -/
theorem main_from_flow (pids : Nat → Int) (names : List String) (env : Env)
    (dir : List Dirent) (oracle : List Readiness) (r : Run) (hr : r.ok pids names)
    (hnames : names = job_names r.now.trace ++ regular_names dir) :
    (main_from env dir oracle r).2.ok pids names
    ∧ (∃ rest, names = job_names (main_from env dir oracle r).2.now.trace ++ rest)
    ∧ (∀ code, (main_from env dir oracle r).1 = Ending.returned code →
        code = 0
        ∧ job_names (main_from env dir oracle r).2.now.trace = names
        ∧ (regular_names dir ≠ [] →
            ∃ j, j < NUM_WORKERS ∧
              ((main_from env dir oracle r).2.now.pipes j).status =
                WorkerStatus.WORKER_BUSY))
    ∧ (∀ code, (main_from env dir oracle r).1 = Ending.exited code → code = EXIT_FAILURE) := by
  rcases dispatch_loop_flow pids names env dir oracle r hr hnames with
    ⟨r1, o1, g1, g2, g3, g4, g5, g6, _⟩ | ⟨r1, g1, g2, g3, _⟩ | ⟨r1, g1, g2, g3, _⟩
  · obtain ⟨s1, s2, s3, _, _, s6, _, _⟩ := send_shutdown_facts pids names env NUM_WORKERS 0 r1 g2
    obtain ⟨c1, c2, c3, _, c5⟩ := cleanup_resources_facts pids names env NUM_WORKERS 0
      (send_shutdown env NUM_WORKERS 0 r1).2 s1
    simp only [main_from, g1]
    rcases hsend : send_shutdown env NUM_WORKERS 0 r1 with ⟨how, r2⟩
    rw [hsend] at s1 s2 s3 s6 c1 c2 c3 c5
    simp only at s1 s2 s3 s6 c1 c2 c3 c5
    cases how with
    | some how =>
      simp only
      rcases s6 with h | h
      · simp at h
      · simp only [Option.some.injEq] at h
        subst h
        exact ⟨s1, ⟨[], by rw [s3, g3]; simp⟩, fun code h => by simp at h,
          fun code h => by simp at h⟩
    | none =>
      simp only
      rcases hclean : cleanup_resources env NUM_WORKERS 0 r2 with ⟨how2, r3⟩
      rw [hclean] at c1 c2 c3 c5
      simp only at c1 c2 c3 c5
      cases how2 with
      | some how2 =>
        simp only
        rcases c5 with h | h
        · simp at h
        · simp only [Option.some.injEq] at h
          subst h
          exact ⟨c1, ⟨[], by rw [c3, s3, g3]; simp⟩, fun code h => by simp at h,
            fun code h => by simp at h⟩
      | none =>
        simp only
        refine ⟨c1, ⟨[], by rw [c3, s3, g3]; simp⟩, fun code h => ?_,
          fun code h => by simp at h⟩
        simp only [Ending.returned.injEq] at h
        refine ⟨h.symm, by rw [c3, s3, g3], fun hne => ?_⟩
        obtain ⟨j, hj, hb⟩ := g6 hne
        exact ⟨j, hj, by rw [c2, s2]; exact hb⟩
  · simp only [main_from, g1]
    exact ⟨g2, g3, fun code h => by simp at h, fun code h => by
      simp only [Ending.exited.injEq] at h
      exact h.symm⟩
  · simp only [main_from, g1]
    exact ⟨g2, g3, fun code h => by simp at h, fun code h => by simp at h⟩

end Dispatch

/-! ## The claims about Main.c -/

section Claims

/-- A busy worker below `NUM_WORKERS` makes the count of busy workers
positive. -/
theorem busy_count_pos (pipes : Nat → Main.WorkerPipes)
    (h : ∃ j, j < Main.NUM_WORKERS ∧ (pipes j).status = Main.WorkerStatus.WORKER_BUSY) :
    0 < Main.busy_count pipes := by
  obtain ⟨j, hj, hb⟩ := h
  unfold Main.busy_count
  rw [List.countP_pos_iff]
  exact ⟨j, List.mem_range.mpr hj, by simp [hb]⟩

/-- Counterexample to C3: six regular files, the first named `SHUTDOWN`.
Worker 0 takes it for the sentinel and exits; the one wait succeeds, reporting
its result stream readable at end of file; the write of `e` to worker 0 then
raises SIGPIPE and ends the dispatcher.  No wait failed or timed out, and only
four of the six names were written. -/
theorem dispatcher_killed_before_last_file :
    Main.waits_ok
        (Main.main Main.worker0_gone Main.sample_pids Main.shutdown_dir
          [Main.one_ready 0 Main.end_of_file]).2.now.trace = true
    ∧ (Main.main Main.worker0_gone Main.sample_pids Main.shutdown_dir
          [Main.one_ready 0 Main.end_of_file]).1 = Main.Ending.killed
    ∧ Main.job_names
        (Main.main Main.worker0_gone Main.sample_pids Main.shutdown_dir
          [Main.one_ready 0 Main.end_of_file]).2.now.trace = ["SHUTDOWN", "b", "c", "d"]
    ∧ (Main.shutdown_dir.filter (fun e => e.is_reg)).map Main.Dirent.d_name =
        ["SHUTDOWN", "b", "c", "d", "e", "g"] := by
  decide

/-- C3, amended: when no readiness wait of the dispatch loop of Main.c fails or
times out and no write of a file name is refused, the loop runs to its end and
the file names written to the job streams are exactly the regular file names
in enumeration order; and no wait fails or times out and no write is refused
when the job streams keep their readers, every answer of the environment
reports a ready worker and there are at least as many answers as regular
files. -/
theorem every_regular_file_dispatched_unless_refused (env : Main.Env) (pids : Nat → Int)
    (dir : List Main.Dirent) (oracle : List Main.Readiness) :
    (Main.waits_ok (Main.dispatch_loop env dir oracle (Main.start pids)).run.now.trace = true →
      Main.writes_ok (Main.dispatch_loop env dir oracle (Main.start pids)).run.now.trace = true →
      ∃ r1 oracle1,
        Main.dispatch_loop env dir oracle (Main.start pids) = Main.Flow.running r1 oracle1 ∧
        Main.job_names r1.now.trace = (dir.filter (fun e => e.is_reg)).map Main.Dirent.d_name)
    ∧ ((∀ t i, env.gone t i = false) →
        (∀ a, a ∈ oracle → 0 < Main.select_ret (List.range' 0 Main.NUM_WORKERS) a) →
        (dir.filter (fun e => e.is_reg)).length ≤ oracle.length →
        Main.waits_ok (Main.dispatch_loop env dir oracle (Main.start pids)).run.now.trace = true ∧
        Main.writes_ok (Main.dispatch_loop env dir oracle (Main.start pids)).run.now.trace =
          true) := by
  have hflow := dispatch_loop_flow pids (Main.regular_names dir) env dir oracle
    (Main.start pids) (start_ok pids _) (by simp [Main.start, Main.job_names])
  refine ⟨fun hw hwr => ?_, fun hcalm hgood hlen => ?_⟩
  · rcases hflow with ⟨r1, o1, g1, _, g3, _⟩ | ⟨r1, g1, _, _, g4, _⟩ | ⟨r1, g1, _, _, _, g5⟩
    · exact ⟨r1, o1, g1, g3⟩
    · rw [g1] at hw
      simp only [Main.Flow.run] at hw
      rw [g4] at hw
      exact absurd hw (by decide)
    · rw [g1] at hwr
      simp only [Main.Flow.run] at hwr
      rw [g5] at hwr
      exact absurd hwr (by decide)
  · obtain ⟨r1, o1, hrun⟩ := dispatch_loop_answered env dir oracle (Main.start pids) hcalm
      hgood (by simpa [Main.regular_names] using hlen)
    rcases hflow with ⟨r2, o2, g1, _, _, g4, g5, _⟩ | ⟨r2, g1, _⟩ | ⟨r2, g1, _⟩
    · rw [g1]
      simp only [Main.Flow.run]
      rw [g4, g5]
      exact ⟨rfl, rfl⟩
    · rw [hrun] at g1
      exact absurd g1 (by simp)
    · rw [hrun] at g1
      exact absurd g1 (by simp)

/-- Witness of C3, amended: five regular files, one wait that reports worker 0
ready, no write refused. -/
theorem every_regular_file_dispatched_unless_refused_witness :
    ∃ r1 oracle1,
      Main.dispatch_loop Main.calm Main.sample_dir [Main.one_ready 0 (Main.token "Success")]
        (Main.start Main.sample_pids) = Main.Flow.running r1 oracle1 ∧
      Main.job_names r1.now.trace =
        (Main.sample_dir.filter (fun e => e.is_reg)).map Main.Dirent.d_name :=
  (every_regular_file_dispatched_unless_refused Main.calm Main.sample_pids Main.sample_dir
    [Main.one_ready 0 (Main.token "Success")]).1 (by decide) (by decide)

/-- Counterexample to C4: five regular files, all four workers report success
at the one wait, `main` returns 0, and the dispatcher has logged four records,
not five. -/
theorem dispatcher_records_fewer_than_jobs :
    (Main.main Main.calm Main.sample_pids Main.sample_dir
        [Main.all_ready (Main.token "Success")]).1 = Main.Ending.returned 0 ∧
    (Main.sample_dir.filter (fun e => e.is_reg)).length = 5 ∧
    (Main.records
      (Main.main Main.calm Main.sample_pids Main.sample_dir
        [Main.all_ready (Main.token "Success")]).2.now.trace).length = 4 := by
  decide

/-- C4, amended: when `main` of Main.c returns 0, the records the dispatcher
logged plus the workers still busy make the number of regular files; with at
least one regular file the records are fewer than the files. -/
theorem dispatcher_records_plus_busy (env : Main.Env) (pids : Nat → Int)
    (dir : List Main.Dirent) (oracle : List Main.Readiness)
    (h : (Main.main env pids dir oracle).1 = Main.Ending.returned 0) :
    (Main.records (Main.main env pids dir oracle).2.now.trace).length +
        Main.busy_count (Main.main env pids dir oracle).2.now.pipes =
      (dir.filter (fun e => e.is_reg)).length
    ∧ (0 < (dir.filter (fun e => e.is_reg)).length →
        (Main.records (Main.main env pids dir oracle).2.now.trace).length <
          (dir.filter (fun e => e.is_reg)).length) := by
  obtain ⟨hok, _, hret, _⟩ := main_from_flow pids (Main.regular_names dir) env dir oracle
    (Main.start pids) (start_ok pids _) (by simp [Main.start, Main.job_names])
  have hbal := (Run_ok_now pids _ _ hok).2.2.1
  obtain ⟨_, h2, h4⟩ := hret 0 h
  have hlen : (Main.job_names (Main.main env pids dir oracle).2.now.trace).length =
      (dir.filter (fun e => e.is_reg)).length := by
    unfold Main.main
    rw [h2]
    simp [Main.regular_names]
  unfold Main.main at hbal hlen ⊢
  refine ⟨by omega, fun hpos => ?_⟩
  have := busy_count_pos _ (h4 (fun hnil => by
    simp only [Main.regular_names, List.map_eq_nil_iff] at hnil
    simp [hnil] at hpos))
  omega

/-- Witness of C4, amended: five regular files, worker 0 reports success; one
record and four busy workers make five, and one is fewer than five. -/
theorem dispatcher_records_plus_busy_witness :
    (Main.records
      (Main.main Main.calm Main.sample_pids Main.sample_dir
        [Main.one_ready 0 (Main.token "Success")]).2.now.trace).length +
        Main.busy_count
          (Main.main Main.calm Main.sample_pids Main.sample_dir
            [Main.one_ready 0 (Main.token "Success")]).2.now.pipes =
      (Main.sample_dir.filter (fun e => e.is_reg)).length
    ∧ (Main.records
        (Main.main Main.calm Main.sample_pids Main.sample_dir
          [Main.one_ready 0 (Main.token "Success")]).2.now.trace).length <
        (Main.sample_dir.filter (fun e => e.is_reg)).length :=
  ⟨(dispatcher_records_plus_busy Main.calm Main.sample_pids Main.sample_dir
      [Main.one_ready 0 (Main.token "Success")] (by decide)).1,
   (dispatcher_records_plus_busy Main.calm Main.sample_pids Main.sample_dir
      [Main.one_ready 0 (Main.token "Success")] (by decide)).2 (by decide)⟩

/-- C5: in the dispatch loop of Main.c, when a regular entry is pending, no
worker is idle and the readiness wait returns 0 (the answer reports no worker
ready, or the environment has nothing more to report), the process ends with
the non-zero status `EXIT_FAILURE`, and the run ends at the wait itself: the
table is unchanged and the only thing added to the trace is the wait, so no
further file name and no sentinel is written. -/
theorem readiness_timeout_is_fatal (env : Main.Env) (e : Main.Dirent)
    (dir : List Main.Dirent) (oracle : List Main.Readiness) (r : Main.Run)
    (hreg : e.is_reg = true)
    (hbusy : ∀ i, i < Main.NUM_WORKERS →
      (r.now.pipes i).status ≠ Main.WorkerStatus.WORKER_IDLE)
    (hzero : oracle = [] ∨ ∃ answer rest, oracle = answer :: rest ∧
      Main.select_ret (List.range' 0 Main.NUM_WORKERS) answer = 0) :
    (Main.main_from env (e :: dir) oracle r).1 = Main.Ending.exited Main.EXIT_FAILURE
    ∧ Main.EXIT_FAILURE ≠ 0
    ∧ (Main.main_from env (e :: dir) oracle r).2.now.pipes = r.now.pipes
    ∧ (Main.main_from env (e :: dir) oracle r).2.now.trace =
        r.now.trace ++ [Main.Event.select 0]
    ∧ (Main.main_from env (e :: dir) oracle r).2.past = r.now :: r.past := by
  have hscan : Main.assign_scan env e.d_name r Main.NUM_WORKERS 0 [] =
      Main.Scan.none_idle (List.range' 0 Main.NUM_WORKERS) := by
    rw [assign_scan_none env e.d_name r Main.NUM_WORKERS 0 []
      (fun j _ hj => hbusy j (by omega))]
    simp
  rcases hzero with rfl | ⟨answer, rest, rfl, hret⟩
  · simp only [Main.main_from, Main.dispatch_loop, hreg, if_true, Main.assign_loop, hscan]
    exact ⟨trivial, by decide, rfl, rfl, rfl⟩
  · simp only [Main.main_from, Main.dispatch_loop, hreg, if_true, Main.assign_loop, hscan,
      hret, show ¬ ((0 : Int) = -1) by decide, if_false]
    exact ⟨trivial, by decide, rfl, rfl, rfl⟩

/-- Witness of C5: the four workers are busy with the first four sample files,
`e.txt` is pending and the wait reports no worker ready. -/
theorem readiness_timeout_is_fatal_witness :
    (Main.main_from Main.calm ({ d_name := "e.txt", is_reg := true } :: [])
        [Main.Readiness.ready (fun _ => none)] Main.four_busy).1 =
          Main.Ending.exited Main.EXIT_FAILURE
    ∧ Main.EXIT_FAILURE ≠ 0
    ∧ (Main.main_from Main.calm ({ d_name := "e.txt", is_reg := true } :: [])
        [Main.Readiness.ready (fun _ => none)] Main.four_busy).2.now.pipes =
          Main.four_busy.now.pipes
    ∧ (Main.main_from Main.calm ({ d_name := "e.txt", is_reg := true } :: [])
        [Main.Readiness.ready (fun _ => none)] Main.four_busy).2.now.trace =
          Main.four_busy.now.trace ++ [Main.Event.select 0]
    ∧ (Main.main_from Main.calm ({ d_name := "e.txt", is_reg := true } :: [])
        [Main.Readiness.ready (fun _ => none)] Main.four_busy).2.past =
          Main.four_busy.now :: Main.four_busy.past :=
  readiness_timeout_is_fatal Main.calm { d_name := "e.txt", is_reg := true } []
    [Main.Readiness.ready (fun _ => none)] Main.four_busy rfl (by decide)
    (Or.inr ⟨_, _, rfl, by decide⟩)

/-- Counterexample to C6: worker 0 is busy, its result stream is ready and
delivers the token "Error"; after the loop over the ready workers its status is
`WORKER_IDLE`, not `WORKER_ERROR`. -/
theorem error_token_sets_idle :
    (Main.four_busy.now.pipes 0).status = Main.WorkerStatus.WORKER_BUSY
    ∧ (Main.fds_after (List.range' 0 Main.NUM_WORKERS)
          (Main.one_ready 0 (Main.token "Error")) 0).map Main.ReadAnswer.bytes =
        some "Error"
    ∧ ((Main.drain "e.txt"
          (Main.fds_after (List.range' 0 Main.NUM_WORKERS)
            (Main.one_ready 0 (Main.token "Error")))
          Main.NUM_WORKERS 0 (Main.select_step Main.four_busy 1)).now.pipes 0).status =
        Main.WorkerStatus.WORKER_IDLE
    ∧ ((Main.drain "e.txt"
          (Main.fds_after (List.range' 0 Main.NUM_WORKERS)
            (Main.one_ready 0 (Main.token "Error")))
          Main.NUM_WORKERS 0 (Main.select_step Main.four_busy 1)).now.pipes 0).status ≠
        Main.WorkerStatus.WORKER_ERROR := by
  decide

/-- C6, amended: after the dispatch loop of Main.c has read the token of a
worker whose result stream is ready, the worker's status is `WORKER_IDLE`,
whatever the token says. -/
theorem result_token_sets_idle (d_name : String) (ready : Nat → Option Main.ReadAnswer)
    (r : Main.Run) (j : Nat) (answer : Main.ReadAnswer) (hj : j < Main.NUM_WORKERS)
    (h : ready j = some answer) :
    ((Main.drain d_name ready Main.NUM_WORKERS 0 r).now.pipes j).status =
      Main.WorkerStatus.WORKER_IDLE := by
  obtain ⟨_, h2, _⟩ := drain_effect d_name ready Main.NUM_WORKERS 0 r
  rw [h2 j, if_pos ⟨Nat.zero_le j, by omega, by simp [h]⟩]

/-- Witness of C6, amended: the token "Error" read from the busy worker 0. -/
theorem result_token_sets_idle_witness :
    ((Main.drain "e.txt" (fun j => if j = 0 then some (Main.token "Error") else none)
        Main.NUM_WORKERS 0 Main.four_busy).now.pipes 0).status =
      Main.WorkerStatus.WORKER_IDLE :=
  result_token_sets_idle "e.txt" (fun j => if j = 0 then some (Main.token "Error") else none)
    Main.four_busy 0 (Main.token "Error") (by decide) rfl

/-- Witness of C1: workers 1 and 3 idle, workers 0 and 2 busy; `find_idle_worker`
returns 1, not 3, and the inline scan of Main.c, on a table with the same idle
workers, writes to the worker `find_idle_worker` returns. -/
theorem find_idle_worker_lowest_id_first_witness :
    CompressionTool.find_idle_worker CompressionTool.odd_idle = ((1 : Nat) : Int)
    ∧ CompressionTool.find_idle_worker CompressionTool.odd_idle ≠ ((3 : Nat) : Int)
    ∧ ((CompressionTool.find_idle_worker CompressionTool.odd_idle = -1 ∧
        ∃ read_fds, Main.assign_scan Main.calm "f.txt" Main.odd_idle Main.NUM_WORKERS 0 [] =
          Main.Scan.none_idle read_fds)
      ∨ ∃ i, i < Main.NUM_WORKERS ∧
          CompressionTool.find_idle_worker CompressionTool.odd_idle = (i : Int) ∧
          Main.assign_scan Main.calm "f.txt" Main.odd_idle Main.NUM_WORKERS 0 [] =
            if Main.calm.gone Main.odd_idle.now.trace.length i then
              Main.Scan.killed (Main.odd_idle.step
                { Main.odd_idle.now with
                  trace := Main.odd_idle.now.trace ++ [Main.Event.sigpipe_job i "f.txt"] })
            else
              Main.Scan.assigned (Main.odd_idle.step
                { pipes := Main.set_status Main.odd_idle.now.pipes i
                    Main.WorkerStatus.WORKER_BUSY
                  trace := Main.odd_idle.now.trace ++ [Main.Event.write_job i "f.txt"] })) :=
  ⟨(find_idle_worker_lowest_id_first CompressionTool.odd_idle).1 1 (by decide) (by decide)
     (by decide),
   (find_idle_worker_lowest_id_first CompressionTool.odd_idle).2.2.1 1 3 (by decide)
     (by decide) (by decide) (by decide),
   (find_idle_worker_lowest_id_first CompressionTool.odd_idle).2.2.2 Main.calm Main.odd_idle
     "f.txt" (by decide)⟩

/-- Counterexample to C10: eight entries, five of them regular files without a
leading dot, and the workers have all left before the first name is written.
The first write, of `a` to worker 0, raises SIGPIPE and ends the dispatcher:
one write call was made, not the four the pairing of the first four names with
the workers 0 to 3 has. -/
theorem busy_wait_killed_at_first_write :
    (CompressionTool.main CompressionTool.all_gone CompressionTool.sample_mem
        (fun i => 100 + (i : Int)) CompressionTool.sample_dir).writes = [(0, "a")]
    ∧ (CompressionTool.main CompressionTool.all_gone CompressionTool.sample_mem
        (fun i => 100 + (i : Int)) CompressionTool.sample_dir).killed = true
    ∧ (((CompressionTool.sample_dir.filter
          (fun e => !CompressionTool.starts_with_dot e.d_name && e.is_reg)).map
        CompressionTool.Dirent.d_name).take CompressionTool.NUM_WORKERS).enum =
      [(0, "a"), (1, "b"), (2, "c"), (3, "d")] := by
  decide

/-- Witness of C10, amended: the same eight entries with every worker still
reading; the process is not killed and at most four write calls are made. -/
theorem busy_wait_writes_first_names_in_order_witness :
    (CompressionTool.main CompressionTool.all_reading CompressionTool.sample_mem
        (fun i => 100 + (i : Int)) CompressionTool.sample_dir).killed = false
    ∧ (CompressionTool.main CompressionTool.all_reading CompressionTool.sample_mem
        (fun i => 100 + (i : Int)) CompressionTool.sample_dir).writes.length ≤
      CompressionTool.NUM_WORKERS :=
  ⟨(busy_wait_writes_first_names_in_order.2 CompressionTool.all_reading
      CompressionTool.sample_mem (fun i => 100 + (i : Int)) CompressionTool.sample_dir
      (by decide)).2.2 (fun _ _ => rfl),
   (busy_wait_writes_first_names_in_order.2 CompressionTool.all_reading
      CompressionTool.sample_mem (fun i => 100 + (i : Int)) CompressionTool.sample_dir
      (by decide)).2.1⟩

end Claims
